import Mathlib

/-!
Shallow embedding of the datashield-python client library
(src/datashield/api.py, src/datashield/utils.py, src/datashield/interface.py).

Python values that may be None are modelled with Option; Python exceptions
are modelled with Except over an explicit exception type PyExc; Python dicts
(which preserve insertion order) are modelled as association lists with
update-in-place insertion.  Remote connections (DSConnection objects,
implemented by drivers outside this repository) are modelled as records of
observable behaviours: each field answers one interface call, with calls that
are polled repeatedly indexed by the poll count.  Wall-clock time advances
only through time.sleep calls, so elapsed time is modelled as the number of
sleeps times the configured delay (times are in milliseconds).
-/

/-- The kinds of Python exception the embedded code can raise.  `dsError` is
datashield.interface.DSError, `valueError` is the builtin ValueError,
`typeError` the builtin TypeError, `validationError` is pydantic's
ValidationError, and `exc` stands for any other driver-raised exception. -/
inductive PyExc where
  | dsError (msg : String)
  | valueError (msg : String)
  | typeError (msg : String)
  | validationError (msg : String)
  | exc (msg : String)
deriving DecidableEq

/-- Whether an exception is a datashield.interface.DSError (the only class
caught by DSSession.close). -/
def PyExc.isDS : PyExc → Bool
  | .dsError _ => true
  | _ => false

/-- Association-list lookup, first match wins (Python dict access). -/
def dictLookup {α : Type} (m : List (String × α)) (k : String) : Option α :=
  match m with
  | [] => none
  | (k2, v) :: rest => if k2 == k then some v else dictLookup rest k

/-- Python dict assignment d[k] = v: update in place if the key exists,
append otherwise (Python dicts preserve insertion order). -/
def dictInsert {α : Type} (m : List (String × α)) (k : String) (v : α) :
    List (String × α) :=
  if m.any (fun p => p.1 == k) then m.map (fun p => if p.1 == k then (k, v) else p)
  else m ++ [(k, v)]

/-- Python dict d.pop(k, None): drop the entry with the given key. -/
def dictRemove {α : Type} (m : List (String × α)) (k : String) :
    List (String × α) :=
  m.filter (fun p => p.1 != k)

/-- Python `k in d` on a dict. -/
def dictMem {α : Type} (m : List (String × α)) (k : String) : Bool :=
  m.any (fun p => p.1 == k)

/-- Keys of a dict, in insertion order. -/
def dictKeys {α : Type} (m : List (String × α)) : List String :=
  m.map Prod.fst

/-- datashield.interface.DSLoginInfo: pydantic model with login details.
`name`, `url`, `profile` and `driver` are typed `str` by the model, so they
are plain strings here; `user`, `password` and `token` are `str | None`. -/
structure DSLoginInfo where
  name : String
  url : String
  user : Option String
  password : Option String
  token : Option String
  profile : String
  driver : String
deriving DecidableEq

/-- The plain dict stored by the legacy builder datashield.utils.DSLoginBuilder
(same keys as DSLoginInfo; profile and driver are defaulted on insertion, so
they are plain strings). -/
structure LoginDict where
  name : String
  url : String
  user : Option String
  password : Option String
  token : Option String
  profile : String
  driver : String
deriving DecidableEq

/-- datashield.api.DSLoginBuilder.add.  Arguments are Option String: `none`
is Python None (for profile and driver an explicit None overriding the string
defaults "default" and "datashield_opal.OpalDriver").  After the four explicit
ValueError checks the entry is built through the pydantic model DSLoginInfo,
whose `profile : str` and `driver : str` fields reject an explicit None with
a ValidationError. -/
def apiAdd (items : List DSLoginInfo)
    (name url user password token profile driver : Option String) :
    Except PyExc (List DSLoginInfo) :=
  match name, url with
  | none, _ => .error (.valueError "Server name is missing")
  | some _, none => .error (.valueError "Server URL is missing")
  | some n, some u =>
    if 0 < (items.filter (fun x => x.name == n)).length then
      .error (.valueError ("Server name must be unique: " ++ n))
    else if user.isNone && token.isNone then
      .error (.valueError "Either user or token must be provided")
    else
      match profile, driver with
      | some p, some d => .ok (items ++ [⟨n, u, user, password, token, p, d⟩])
      | _, _ => .error (.validationError "Input should be a valid string")

/-- datashield.utils.DSLoginBuilder.add (legacy builder): same four checks,
but the stored dict replaces an explicit None profile or driver by the
defaults ('default' and 'datashield_opal.OpalDriver'). -/
def utilsAdd (items : List LoginDict)
    (name url user password token profile driver : Option String) :
    Except PyExc (List LoginDict) :=
  match name, url with
  | none, _ => .error (.valueError "Server name is missing")
  | some _, none => .error (.valueError "Server URL is missing")
  | some n, some u =>
    if 0 < (items.filter (fun x => x.name == n)).length then
      .error (.valueError ("Server name must be unique: " ++ n))
    else if user.isNone && token.isNone then
      .error (.valueError "Either user or token must be provided")
    else
      .ok (items ++ [⟨n, u, user, password, token, profile.getD "default",
        driver.getD "datashield_opal.OpalDriver"⟩])

/-- datashield.api.DSLoginBuilder.remove: keeps entries whose name differs. -/
def apiRemove (items : List DSLoginInfo) (n : String) : List DSLoginInfo :=
  items.filter (fun x => x.name != n)

/-- datashield.utils.DSLoginBuilder.remove. -/
def utilsRemove (items : List LoginDict) (n : String) : List LoginDict :=
  items.filter (fun x => x.name != n)

/-- One builder call: add (with all Python arguments explicit) or remove. -/
inductive BOp where
  | add (name url user password token profile driver : Option String)
  | remove (name : String)

/-- Effect of one call on the api builder state: a raised exception leaves
the item list unchanged (the checks precede the append). -/
def apiStep (items : List DSLoginInfo) : BOp → List DSLoginInfo
  | .add n u us pw tk pr dr =>
    match apiAdd items n u us pw tk pr dr with
    | .ok l => l
    | .error _ => items
  | .remove n => apiRemove items n

/-- Effect of one call on the legacy builder state. -/
def utilsStep (items : List LoginDict) : BOp → List LoginDict
  | .add n u us pw tk pr dr =>
    match utilsAdd items n u us pw tk pr dr with
    | .ok l => l
    | .error _ => items
  | .remove n => utilsRemove items n

/-- api builder state reached from an empty builder (api.DSLoginBuilder()
constructed without configuration names) by a sequence of calls;
build() returns this list. -/
def apiRun (ops : List BOp) : List DSLoginInfo :=
  ops.foldl apiStep []

/-- Legacy builder state reached from an empty builder by a sequence of
calls; build() returns this list. -/
def utilsRun (ops : List BOp) : List LoginDict :=
  ops.foldl utilsStep []

/-- Representation map from a pydantic DSLoginInfo to the plain dict the
legacy builder stores. -/
def toDict (x : DSLoginInfo) : LoginDict :=
  ⟨x.name, x.url, x.user, x.password, x.token, x.profile, x.driver⟩

/-- Decidable goodness of a builder call: the call does not pass an explicit
None profile or driver (omitting the argument means passing the string
default, so it is modelled as `some`). -/
def goodOp : BOp → Bool
  | .add _ _ _ _ _ pr dr => pr.isSome && dr.isSome
  | .remove _ => true

/-- A remote connection (a driver-provided DSConnection object), modelled by
its observable behaviour at each interface call the orchestrator makes.
`sessionStarted` answers the k-th is_session_started() poll (the initial
status check is poll 0, the k-th pass of the wait loop is poll k);
`aggCompletedAt` is the first poll index at which the DSResult handle
returned by aggregate() reports is_completed(); `aggFetch` is what fetch()
then returns or raises. -/
structure Conn where
  name : String
  sessionObj : String
  hasSession : Bool
  startSessionErr : Option PyExc
  sessionStarted : Nat → Except PyExc Bool
  saveWsErr : Option PyExc
  disconnectErr : Option PyExc
  aggIssueErr : Option PyExc
  aggCompletedAt : Nat
  aggFetch : Except PyExc Int

instance {ε α : Type} [DecidableEq ε] [DecidableEq α] : DecidableEq (Except ε α) :=
  fun x y =>
    match x, y with
    | .ok a, .ok b =>
      if h : a = b then .isTrue (congrArg Except.ok h)
      else .isFalse (fun hh => h (Except.ok.inj hh))
    | .error a, .error b =>
      if h : a = b then .isTrue (congrArg Except.error h)
      else .isFalse (fun hh => h (Except.error.inj hh))
    | .ok _, .error _ => .isFalse (fun hh => Except.noConfusion hh)
    | .error _, .ok _ => .isFalse (fun hh => Except.noConfusion hh)

/-- A DSResult handle held in the cmd dict of DSSession._do_wait. -/
structure Handle where
  completedAt : Nat
  fetchRes : Except PyExc Int
deriving DecidableEq

/-- The DSResult handle returned by conn.aggregate(expr, asynchronous). -/
def Conn.aggHandle (c : Conn) : Handle :=
  ⟨c.aggCompletedAt, c.aggFetch⟩

/-- DSSession state: login list, start_timeout and start_delay (milliseconds;
the Python floats 300.0 s and 0.1 s are 300000 ms and 100 ms), the connection
list (None before open and after close) and the error dict (None before the
first open). -/
structure SessionState where
  logins : List DSLoginInfo
  startTimeout : Nat
  startDelay : Nat
  conns : Option (List Conn)
  errors : Option (List (String × PyExc))

/-- DSSession.__init__ with explicit start_timeout and start_delay. -/
def mkSession (logins : List DSLoginInfo) (startTimeout startDelay : Nat) :
    SessionState :=
  ⟨logins, startTimeout, startDelay, none, none⟩

/-- DSSession.__init__ with the default start_timeout=300.0 s and
start_delay=0.1 s (in milliseconds). -/
def mkSessionDefault (logins : List DSLoginInfo) : SessionState :=
  mkSession logins 300000 100

/-- Message of the DSError raised when the session-start wait times out. -/
def timeoutMsg : String := "Timed out waiting for R sessions to start"

/-- Message of the DSError raised when no session could be started. -/
def noSessionsMsg : String := "No sessions could be started successfully."

/-- Message of the DSError raised by DSSession._check_errors. -/
def checkErrorsMsg : String :=
  "There are some errors, please check them with DSSession.get_errors()."

/-- Message of the TypeError Python raises when iterating None. -/
def noneIterMsg : String := "NoneType object is not iterable"

/-- Message of the TypeError Python raises for len(None). -/
def lenNoneMsg : String := "object of type NoneType has no len"

/-- Sentinel for exhausted modelling fuel; proved unreachable whenever
start_delay is positive. -/
def fuelMsg : String := "model fuel exhausted"

/-- DSSession.has_connections: len(self.conns) > 0, a TypeError when
self.conns is None. -/
def hasConnections (s : SessionState) : Except PyExc Bool :=
  match s.conns with
  | none => .error (.typeError lenNoneMsg)
  | some cs => .ok (decide (0 < cs.length))

/-- DSSession.get_connection_names: guarded by the truthiness of self.conns
(None and the empty list are both falsy), so it is total. -/
def getConnectionNames (s : SessionState) : List String :=
  match s.conns with
  | none => []
  | some cs => if cs.isEmpty then [] else cs.map Conn.name

/-- DSSession.has_errors: len(self.errors) > 0, a TypeError when
self.errors is None. -/
def hasErrors (s : SessionState) : Except PyExc Bool :=
  match s.errors with
  | none => .error (.typeError lenNoneMsg)
  | some es => .ok (decide (0 < es.length))

/-- DSSession.get_errors: returns self.errors as is. -/
def getErrors (s : SessionState) : Option (List (String × PyExc)) :=
  s.errors

/-- One iteration of the loop body of DSSession.close for one connection:
optionally save a workspace then disconnect, with `except DSError: pass`
around both.  Returns the exception escaping the except clause (if any) and
whether disconnect() was reached. -/
def closeConn (c : Conn) (save : Option String) : Option PyExc × Bool :=
  match save with
  | some _ =>
    match c.saveWsErr with
    | some e => (if e.isDS then none else some e, false)
    | none =>
      match c.disconnectErr with
      | some e => (if e.isDS then none else some e, true)
      | none => (none, true)
  | none =>
    match c.disconnectErr with
    | some e => (if e.isDS then none else some e, true)
    | none => (none, true)

/-- The loop of DSSession.close over the connection list.  An uncaught
(non-DSError) exception aborts the loop and propagates.  The returned list
logs the names of connections whose disconnect() was called, in order. -/
def closeLoop (save : Option String) :
    List Conn → List String → Except PyExc Unit × List String
  | [], log => (.ok (), log)
  | c :: rest, log =>
    let r := closeConn c save
    let log2 := if r.2 then log ++ [c.name] else log
    match r.1 with
    | some e => (.error e, log2)
    | none => closeLoop save rest log2

/-- DSSession.close: resets self.errors to the empty dict, iterates the
connections (a TypeError if self.conns is None), and sets self.conns to None
only when the loop completes; an uncaught exception leaves self.conns as it
was.  The third component logs the disconnect() calls made. -/
def closeRun (s : SessionState) (save : Option String) :
    Except PyExc Unit × SessionState × List String :=
  let s1 : SessionState := { s with errors := some [] }
  match s.conns with
  | none => (.error (.typeError noneIterMsg), s1, [])
  | some cs =>
    match closeLoop save cs [] with
    | (.ok _, log) => (.ok (), { s1 with conns := none }, log)
    | (.error e, log) => (.error e, s1, log)

/-- The loop of DSSession.open over the login list.  `nc` models
DSDriver.load_class(info.driver).new_connection(info, restore).  On failure
with failSafe the error is recorded and the loop continues; without failSafe
self.close() runs (resetting errors, disconnecting the connections opened so
far, clearing self.conns) and the triggering error is re-raised — unless
close itself raises a non-DSError, which then propagates instead.  Returns
(outcome, final self.conns, final self.errors, disconnect log). -/
def openLoop (nc : DSLoginInfo → Option String → Except PyExc Conn)
    (restore : Option String) (failSafe : Bool) :
    List DSLoginInfo → List Conn → List (String × PyExc) →
      Except PyExc Unit × Option (List Conn) × List (String × PyExc) × List String
  | [], conns, errors => (.ok (), some conns, errors, [])
  | info :: rest, conns, errors =>
    match nc info restore with
    | .ok c => openLoop nc restore failSafe rest (conns ++ [c]) errors
    | .error e =>
      if failSafe then
        openLoop nc restore failSafe rest conns (dictInsert errors info.name e)
      else
        match closeLoop none conns [] with
        | (.ok _, log) => (.error e, none, [], log)
        | (.error e2, log) => (.error e2, some conns, [], log)

/-- DSSession.open: starts from a fresh empty connection list and error dict
and runs the login loop.  (The error logging after the loop has no state
effect.) -/
def openRun (nc : DSLoginInfo → Option String → Except PyExc Conn)
    (s : SessionState) (restore : Option String) (failSafe : Bool) :
    Except PyExc Unit × SessionState × List String :=
  match openLoop nc restore failSafe s.logins [] [] with
  | (out, conns2, errors2, log) =>
    (out, { s with conns := conns2, errors := some errors2 }, log)

/-- One is_session_started() poll inside DSSession.sessions: a True answer
appends to started_conns, an exception appends to excluded_conns. -/
def pollStep (p : Nat) (acc : List String × List String) (c : Conn) :
    List String × List String :=
  match c.sessionStarted p with
  | .ok true => (acc.1 ++ [c.name], acc.2)
  | .ok false => acc
  | .error _ => (acc.1, acc.2 ++ [c.name])

/-- One polling pass over a pre-computed list of connections. -/
def pollPass (l : List Conn) (p : Nat) (st ex : List String) :
    List String × List String :=
  l.foldl (pollStep p) (st, ex)

/-- Whether the start_session attempt for a connection raises (it is only
attempted when the connection has no session yet). -/
def startFails (c : Conn) : Bool :=
  !c.hasSession && c.startSessionErr.isSome

/-- Whether the poll with index `p` answers True. -/
def pollOkTrue (p : Nat) (c : Conn) : Bool :=
  match c.sessionStarted p with
  | .ok true => true
  | _ => false

/-- Whether the poll with index `p` raises. -/
def pollErr (p : Nat) (c : Conn) : Bool :=
  match c.sessionStarted p with
  | .error _ => true
  | _ => false

/-- First loop of DSSession.sessions: request an asynchronous session start
for every connection lacking one; a start_session failure excludes the
connection. -/
def startPhase (cs : List Conn) : List String :=
  cs.foldl (fun ex c => if startFails c then ex ++ [c.name] else ex) []

/-- The bounded wait loop of DSSession.sessions: while fewer sessions are
started than there are non-excluded connections, check the timeout, sleep
start_delay, and re-poll every not-yet-started non-excluded connection.
`elapsed` is the time since start_time in ms (it advances only by the
sleeps); `fuel` only makes the recursion structural and is proved
inexhaustible when the delay is positive. -/
def waitLoopAux (cs : List Conn) (timeout delay : Nat) :
    Nat → List String → List String → Nat → Nat →
      Except PyExc (List String × List String)
  | fuel, st, ex, elapsed, pass =>
    if (st.length : Int) < (cs.length : Int) - (ex.length : Int) then
      if timeout < elapsed then .error (.dsError timeoutMsg)
      else
        match fuel with
        | 0 => .error (.exc fuelMsg)
        | f + 1 =>
          let remaining :=
            cs.filter (fun c => !(st.contains c.name) && !(ex.contains c.name))
          let r := pollPass remaining pass st ex
          waitLoopAux cs timeout delay f r.1 r.2 (elapsed + delay) (pass + 1)
    else .ok (st, ex)

/-- DSSession.sessions: reset the error dict, start sessions (exclusions on
start failure), poll everyone once (exclusions on status-check failure), run
the bounded wait loop, collect name → session object for started
connections, drop the excluded connections from self.conns if any, and fail
with a DSError when no connection remains. -/
def sessionsRun (s : SessionState) :
    Except PyExc (List (String × String)) × SessionState :=
  let s1 : SessionState := { s with errors := some [] }
  match s.conns with
  | none => (.error (.typeError noneIterMsg), s1)
  | some cs =>
    let ex0 := startPhase cs
    let r1 := pollPass (cs.filter (fun c => !(ex0.contains c.name))) 0 [] ex0
    let fuel := s.startTimeout / s.startDelay + 1
    match waitLoopAux cs s.startTimeout s.startDelay fuel r1.1 r1.2 0 1 with
    | .error e => (.error e, s1)
    | .ok (stF, exF) =>
      let rval := (cs.filter (fun c => stF.contains c.name)).map
        (fun c => (c.name, c.sessionObj))
      let cs2 := if 0 < exF.length
        then cs.filter (fun c => !(exF.contains c.name)) else cs
      let s2 : SessionState := { s1 with conns := some cs2 }
      if cs2.length = 0 then (.error (.dsError noSessionsMsg), s2)
      else (.ok rval, s2)

/-- One connection visit inside a pass of DSSession._do_wait: if the
connection has a pending handle in cmd and it is completed, fetch (recording
a fetch exception in the error dict) and pop it from cmd; otherwise
keep_alive (a no-op on the state). -/
def doWaitStep (t : Nat)
    (acc : List (String × Handle) × List (String × PyExc) × List (String × Int))
    (c : Conn) :
    List (String × Handle) × List (String × PyExc) × List (String × Int) :=
  match dictLookup acc.1 c.name with
  | some h =>
    if h.completedAt ≤ t then
      match h.fetchRes with
      | .ok v => (dictRemove acc.1 c.name, acc.2.1, dictInsert acc.2.2 c.name v)
      | .error e =>
        (dictRemove acc.1 c.name, dictInsert acc.2.1 c.name e, acc.2.2)
    else acc
  | none => acc

/-- One pass of DSSession._do_wait over the live connections. -/
def doWaitPass (cs : List Conn) (t : Nat)
    (acc : List (String × Handle) × List (String × PyExc) × List (String × Int)) :
    List (String × Handle) × List (String × PyExc) × List (String × Int) :=
  cs.foldl (doWaitStep t) acc

/-- DSSession._do_wait: repeat passes (with a 0.1 s sleep between them, so
the pass index is the poll time) until cmd is empty, threading the error
dict and building the result dict.  The loop has no timeout in the source;
`none` means the fuel ran out while work was still pending. -/
def doWaitAux (cs : List Conn) :
    Nat → Nat → List (String × Handle) → List (String × PyExc) →
      List (String × Int) →
      Option (List (String × PyExc) × List (String × Int))
  | fuel, t, cmd, errors, rval =>
    if cmd.isEmpty then some (errors, rval)
    else
      match fuel with
      | 0 => none
      | f + 1 =>
        let r := doWaitPass cs t (cmd, errors, rval)
        doWaitAux cs f (t + 1) r.1 r.2.1 r.2.2

/-- The issuing loop of DSSession.aggregate: call conn.aggregate on every
live connection, collecting handles into cmd and exceptions into the error
dict.  (The rval[conn.name] = None entries written on failure are discarded
by the `rval = self._do_wait(cmd)` reassignment, so they are not modelled.) -/
def aggIssuePhase (cs : List Conn) :
    List (String × Handle) × List (String × PyExc) :=
  cs.foldl
    (fun acc c =>
      match c.aggIssueErr with
      | none => (acc.1 ++ [(c.name, c.aggHandle)], acc.2)
      | some e => (acc.1, dictInsert acc.2 c.name e))
    ([], [])

/-- DSSession.aggregate: ensure sessions are ready (propagating any
exception), issue the aggregate calls, drive _do_wait, store the final error
dict, and apply _check_errors: raise a DSError if any error was recorded,
otherwise return the result dict. -/
def aggregateRun (s : SessionState) (fuel : Nat) (expr : String) :
    Option (Except PyExc (List (String × Int)) × SessionState) :=
  match sessionsRun s with
  | (.error e, s1) => some (.error e, s1)
  | (.ok _, s1) =>
    match s1.conns with
    | none => some (.error (.typeError noneIterMsg), s1)
    | some cs =>
      let ie := aggIssuePhase cs
      match doWaitAux cs fuel 0 ie.1 ie.2 [] with
      | none => none
      | some (errors2, rval) =>
        let s2 : SessionState := { s1 with errors := some errors2 }
        if errors2.isEmpty then some (.ok rval, s2)
        else some (.error (.dsError checkErrorsMsg), s2)

/-- Whether an optional exception is absent or a DSError (the behaviours
under which DSSession.close completes its loop). -/
def okOrDS (o : Option PyExc) : Bool :=
  match o with
  | none => true
  | some e => e.isDS

/-- Sample behaviour: a connection whose session is already established and
reports started at once, and whose aggregate call completes at poll 0
fetching `v`.  Used to build concrete instances. -/
def readyConn (nm : String) (v : Int) : Conn :=
  ⟨nm, nm ++ "-sess", true, none, fun _ => .ok true, none, none, none, 0, .ok v⟩

/-- Sample behaviour: ready session but conn.aggregate(expr) itself raises. -/
def badIssueConn (nm : String) : Conn :=
  ⟨nm, nm ++ "-sess", true, none, fun _ => .ok true, none, none,
    some (.exc "aggregate refused"), 0, .ok 0⟩

/-- Sample behaviour: session never reports started and never errors. -/
def neverStartsConn (nm : String) : Conn :=
  ⟨nm, nm ++ "-sess", true, none, fun _ => .ok false, none, none, none, 0, .ok 0⟩

/-- Sample behaviour: start_session raises, so the connection is excluded. -/
def failStartConn (nm : String) : Conn :=
  ⟨nm, nm ++ "-sess", false, some (.exc "no start"), fun _ => .ok false,
    none, none, none, 0, .ok 0⟩

/-- Sample behaviour: ready session whose disconnect raises a DSError. -/
def dsErrorDisconnectConn (nm : String) : Conn :=
  ⟨nm, nm ++ "-sess", true, none, fun _ => .ok true, none,
    some (.dsError "disconnect failed"), none, 0, .ok 0⟩

/-- Specification helper: whether a connection (selected by `q`, the
connections whose aggregate call was issued) still has a pending handle at
the start of pass `t` of the wait loop, i.e. its handle completes no earlier
than pass `t`. -/
def pendAt (q : Conn → Bool) (t : Nat) (c : Conn) : Bool :=
  q c && decide (t ≤ c.aggCompletedAt)

/-! ## Builder lemmas -/

theorem apiAdd_ok_names {items : List DSLoginInfo}
    {nm u us pw tk pr dr : Option String} {l : List DSLoginInfo}
    (h : apiAdd items nm u us pw tk pr dr = .ok l) :
    ∃ n, nm = some n ∧ (∀ x ∈ items, x.name ≠ n) ∧
      l.map DSLoginInfo.name = items.map DSLoginInfo.name ++ [n] := by
  match nm, u with
  | none, _ => simp [apiAdd] at h
  | some n, none => simp [apiAdd] at h
  | some n, some u2 =>
    simp only [apiAdd] at h
    split at h
    · simp at h
    · next hdup =>
      split at h
      · simp at h
      · cases pr with
        | none => simp at h
        | some p =>
          cases dr with
          | none => simp at h
          | some d =>
            simp only [Except.ok.injEq] at h
            refine ⟨n, rfl, ?_, ?_⟩
            · intro x hx hxn
              have h0 : (items.filter (fun x => x.name == n)) = [] := by
                have := Nat.eq_zero_of_not_pos hdup
                exact List.length_eq_zero.mp this
              have hmem : x ∈ items.filter (fun x => x.name == n) :=
                List.mem_filter.mpr ⟨hx, by simp [hxn]⟩
              simp [h0] at hmem
            · subst h
              simp

theorem apiStep_names_nodup {items : List DSLoginInfo} (op : BOp)
    (h : (items.map DSLoginInfo.name).Nodup) :
    ((apiStep items op).map DSLoginInfo.name).Nodup := by
  cases op with
  | add nm u us pw tk pr dr =>
    cases hres : apiAdd items nm u us pw tk pr dr with
    | error e => simpa [apiStep, hres] using h
    | ok l =>
      obtain ⟨n, -, hfresh, hnames⟩ := apiAdd_ok_names hres
      have : (l.map DSLoginInfo.name).Nodup := by
        rw [hnames, List.nodup_append]
        refine ⟨h, List.nodup_singleton n, ?_⟩
        intro a ha hb
        simp only [List.mem_singleton] at hb
        subst hb
        obtain ⟨x, hx, hxn⟩ := List.mem_map.mp ha
        exact hfresh x hx hxn
      simpa [apiStep, hres] using this
  | remove n =>
    have hsub : ((items.filter (fun x => x.name != n)).map DSLoginInfo.name).Sublist
        (items.map DSLoginInfo.name) :=
      (List.filter_sublist items).map DSLoginInfo.name
    simpa [apiStep, apiRemove] using hsub.nodup h

theorem apiFoldl_names_nodup :
    ∀ (ops : List BOp) (items : List DSLoginInfo),
      (items.map DSLoginInfo.name).Nodup →
      ((ops.foldl apiStep items).map DSLoginInfo.name).Nodup := by
  intro ops
  induction ops with
  | nil => intro items h; exact h
  | cons op rest ih => intro items h; exact ih _ (apiStep_names_nodup op h)

theorem apiAdd_dup {items : List DSLoginInfo} {n : String}
    (u us pw tk pr dr : Option String)
    (hdup : ∃ x, x ∈ items ∧ x.name = n) :
    ∃ msg, apiAdd items (some n) u us pw tk pr dr = .error (.valueError msg) := by
  obtain ⟨x, hx, hxn⟩ := hdup
  cases u with
  | none => exact ⟨"Server URL is missing", rfl⟩
  | some u2 =>
    have hpos : 0 < (items.filter (fun x => x.name == n)).length :=
      List.length_pos_of_mem (List.mem_filter.mpr ⟨hx, by simp [hxn]⟩)
    exact ⟨"Server name must be unique: " ++ n, by simp [apiAdd, hpos]⟩

/-- Claim C8: for every reachable state of the api login builder (reached
from an empty builder by any sequence of add/remove calls) and every add
call whose name equals an existing entry's name, add raises a ValueError and
leaves the item list unchanged; consequently the names in the built list are
always unique. -/
theorem loginBuilder_duplicate_add_rejected (ops : List BOp) :
    ((apiRun ops).map DSLoginInfo.name).Nodup ∧
    ∀ (n : String) (u us pw tk pr dr : Option String),
      (∃ x, x ∈ apiRun ops ∧ x.name = n) →
      (∃ msg, apiAdd (apiRun ops) (some n) u us pw tk pr dr =
        .error (.valueError msg)) ∧
      apiRun (ops ++ [BOp.add (some n) u us pw tk pr dr]) = apiRun ops := by
  constructor
  · exact apiFoldl_names_nodup ops [] (by simp)
  · intro n u us pw tk pr dr hdup
    obtain ⟨msg, hmsg⟩ := apiAdd_dup u us pw tk pr dr hdup
    refine ⟨⟨msg, hmsg⟩, ?_⟩
    show (ops ++ [BOp.add (some n) u us pw tk pr dr]).foldl apiStep [] = apiRun ops
    rw [List.foldl_append]
    show apiStep (apiRun ops) (BOp.add (some n) u us pw tk pr dr) = apiRun ops
    simp [apiStep, hmsg]

theorem loginBuilder_duplicate_add_rejected_witness :
    ((apiRun [BOp.add (some "a") (some "u") (some "x") none none
        (some "default") (some "d")]).map DSLoginInfo.name).Nodup ∧
    (∃ msg, apiAdd (apiRun [BOp.add (some "a") (some "u") (some "x") none none
        (some "default") (some "d")]) (some "a") (some "u2") (some "y") none none
        (some "default") (some "d") = .error (.valueError msg)) ∧
    apiRun ([BOp.add (some "a") (some "u") (some "x") none none
        (some "default") (some "d")] ++
      [BOp.add (some "a") (some "u2") (some "y") none none
        (some "default") (some "d")]) =
      apiRun [BOp.add (some "a") (some "u") (some "x") none none
        (some "default") (some "d")] := by
  have h := loginBuilder_duplicate_add_rejected
    [BOp.add (some "a") (some "u") (some "x") none none (some "default") (some "d")]
  exact ⟨h.1, h.2 "a" (some "u2") (some "y") none none (some "default") (some "d")
    (by decide)⟩

/-- Claim C10 counterexample: a single add call passing profile=None
explicitly is accepted by the legacy builder (which substitutes the default
profile) but rejected by the current builder (pydantic rejects None for the
str-typed profile field), so the two builders do not accept exactly the same
calls. -/
theorem legacy_vs_api_builder_counterexample :
    utilsAdd [] (some "a") (some "u") (some "x") none none none (some "d") =
      .ok [⟨"a", "u", some "x", none, none, "default", "d"⟩] ∧
    apiAdd [] (some "a") (some "u") (some "x") none none none (some "d") =
      .error (.validationError "Input should be a valid string") := by
  constructor
  · rfl
  · rfl

theorem filter_name_toDict (items : List DSLoginInfo) (n : String) :
    (items.map toDict).filter (fun x => x.name == n) =
      (items.filter (fun x => x.name == n)).map toDict := by
  rw [List.filter_map]
  rfl

theorem addCorrespond (items : List DSLoginInfo)
    (nm u us pw tk : Option String) (p d : String) :
    utilsAdd (items.map toDict) nm u us pw tk (some p) (some d) =
      (apiAdd items nm u us pw tk (some p) (some d)).map (List.map toDict) := by
  match nm, u with
  | none, _ => rfl
  | some n, none => rfl
  | some n, some u2 =>
    simp only [utilsAdd, apiAdd, filter_name_toDict, List.length_map]
    by_cases hdup : 0 < (items.filter (fun x => x.name == n)).length
    · simp [hdup, Except.map]
    · by_cases hcred : (us.isNone && tk.isNone) = true
      · simp [hdup, hcred, Except.map]
      · simp [hdup, hcred, Except.map, toDict]

theorem removeCorrespond (items : List DSLoginInfo) (n : String) :
    utilsRemove (items.map toDict) n = (apiRemove items n).map toDict := by
  simp only [utilsRemove, apiRemove]
  rw [List.filter_map]
  rfl

theorem stepCorrespond (items : List DSLoginInfo) (op : BOp)
    (hop : goodOp op = true) :
    utilsStep (items.map toDict) op = (apiStep items op).map toDict := by
  cases op with
  | add nm u us pw tk pr dr =>
    simp only [goodOp, Bool.and_eq_true, Option.isSome_iff_exists] at hop
    obtain ⟨⟨p, hp⟩, ⟨d, hd⟩⟩ := hop
    subst hp
    subst hd
    simp only [utilsStep, apiStep]
    rw [addCorrespond]
    cases apiAdd items nm u us pw tk (some p) (some d) with
    | ok l => simp [Except.map]
    | error e => simp [Except.map]
  | remove n =>
    simp only [utilsStep, apiStep]
    exact removeCorrespond items n

theorem runCorrespond :
    ∀ (ops : List BOp) (items : List DSLoginInfo),
      (∀ op ∈ ops, goodOp op = true) →
      ops.foldl utilsStep (items.map toDict) = (ops.foldl apiStep items).map toDict := by
  intro ops
  induction ops with
  | nil => intro items _; rfl
  | cons op rest ih =>
    intro items h
    simp only [List.foldl_cons]
    rw [stepCorrespond items op (h op (List.mem_cons_self op rest))]
    exact ih (apiStep items op) (fun o ho => h o (List.mem_cons_of_mem _ ho))

/-- Claim C10 amended: the legacy builder (utils.DSLoginBuilder) and the
current builder (api.DSLoginBuilder without configuration names) accept and
reject exactly the same calls with the same errors and build the same field
values in the same order (up to dict-vs-DSLoginInfo representation),
provided no add call passes profile or driver explicitly as None; on an
explicit None the legacy builder substitutes the default string while the
current builder raises a pydantic validation error. -/
theorem legacy_vs_api_builder_equiv (ops : List BOp)
    (hops : ∀ op ∈ ops, goodOp op = true) :
    utilsRun ops = (apiRun ops).map toDict ∧
    ∀ (nm u us pw tk : Option String) (p d : String),
      utilsAdd (utilsRun ops) nm u us pw tk (some p) (some d) =
        (apiAdd (apiRun ops) nm u us pw tk (some p) (some d)).map
          (List.map toDict) := by
  have h1 : utilsRun ops = (apiRun ops).map toDict := by
    have := runCorrespond ops [] hops
    simpa [utilsRun, apiRun] using this
  refine ⟨h1, fun nm u us pw tk p d => ?_⟩
  rw [h1]
  exact addCorrespond (apiRun ops) nm u us pw tk p d

theorem legacy_vs_api_builder_equiv_witness :
    utilsRun [BOp.add (some "a") (some "u") (some "x") none none
        (some "default") (some "d")] =
      (apiRun [BOp.add (some "a") (some "u") (some "x") none none
        (some "default") (some "d")]).map toDict ∧
    utilsAdd (utilsRun [BOp.add (some "a") (some "u") (some "x") none none
        (some "default") (some "d")]) (some "b") (some "u2") none none
        (some "tok") "default" "d2" =
      (apiAdd (apiRun [BOp.add (some "a") (some "u") (some "x") none none
        (some "default") (some "d")]) (some "b") (some "u2") none none
        (some "tok") (some "default") (some "d2")).map (List.map toDict) := by
  have h := legacy_vs_api_builder_equiv
    [BOp.add (some "a") (some "u") (some "x") none none (some "default") (some "d")]
    (by decide)
  exact ⟨h.1, h.2 (some "b") (some "u2") none none (some "tok") "default" "d2"⟩

/-! ## close / open lemmas -/

theorem closeLoop_all_caught (save : Option String) :
    ∀ (cs : List Conn) (log : List String),
      (∀ c ∈ cs, (∀ w, save = some w → okOrDS c.saveWsErr = true) ∧
        okOrDS c.disconnectErr = true) →
      closeLoop save cs log =
        (.ok (), log ++ (cs.filter
          (fun c => save.isNone || c.saveWsErr.isNone)).map Conn.name) := by
  intro cs
  induction cs with
  | nil => intro log _; simp [closeLoop]
  | cons c rest ih =>
    intro log hok
    have hc := hok c (List.mem_cons_self c rest)
    have hrest := fun x hx => hok x (List.mem_cons_of_mem c hx)
    cases hsave : save with
    | none =>
      subst hsave
      have ihh := ih (log ++ [c.name]) hrest
      cases hdc : c.disconnectErr with
      | none =>
        have hcc : closeConn c none = (none, true) := by simp [closeConn, hdc]
        simp [closeLoop, hcc, ihh, hdc]
      | some e =>
        have hds : e.isDS = true := by simpa [hdc, okOrDS] using hc.2
        have hcc : closeConn c none = (none, true) := by
          simp [closeConn, hdc, hds]
        simp [closeLoop, hcc, ihh, hdc]
    | some w =>
      subst hsave
      cases hsw : c.saveWsErr with
      | none =>
        have ihh := ih (log ++ [c.name]) hrest
        cases hdc : c.disconnectErr with
        | none =>
          have hcc : closeConn c (some w) = (none, true) := by
            simp [closeConn, hsw, hdc]
          simp [closeLoop, hcc, ihh, hsw]
        | some e =>
          have hds : e.isDS = true := by simpa [hdc, okOrDS] using hc.2
          have hcc : closeConn c (some w) = (none, true) := by
            simp [closeConn, hsw, hdc, hds]
          simp [closeLoop, hcc, ihh, hsw]
      | some e =>
        have hds : e.isDS = true := by simpa [hsw, okOrDS] using hc.1 w rfl
        have hcc : closeConn c (some w) = (none, false) := by
          simp [closeConn, hsw, hds]
        have ihh := ih log hrest
        simp [closeLoop, hcc, ihh, hsw]

theorem closeRun_ok_conns {s : SessionState} {save : Option String}
    {s1 : SessionState} {log : List String}
    (h : closeRun s save = (.ok (), s1, log)) : s1.conns = none := by
  cases hcs : s.conns with
  | none =>
    simp [closeRun, hcs] at h
  | some cs =>
    rcases hloop : closeLoop save cs [] with ⟨out, lg⟩
    cases out with
    | ok u =>
      simp only [closeRun, hcs, hloop, Prod.mk.injEq] at h
      obtain ⟨-, h2, -⟩ := h
      rw [← h2]
    | error e =>
      simp [closeRun, hcs, hloop] at h

/-- Claim C6 counterexample: on a session holding one open connection whose
disconnect succeeds, the first close() returns normally but the second
close() raises a TypeError, because close sets self.conns to None and the
second call iterates over None. -/
theorem close_twice_counterexample :
    (closeRun ⟨[], 300000, 100, some [readyConn "a" 1], none⟩ none).1 =
      .ok () ∧
    (closeRun
      ((closeRun ⟨[], 300000, 100, some [readyConn "a" 1], none⟩ none).2.1)
      none).1 = .error (.typeError noneIterMsg) := by
  constructor
  · rfl
  · rfl

/-- Claim C6 amended: calling close() twice in a row is not error-free: a
close() call that completed normally leaves self.conns = None (not an empty
collection), so the second close() raises a TypeError while resetting the
error dict and disconnecting nothing. -/
theorem close_twice_raises (s : SessionState) (save1 save2 : Option String)
    (s1 : SessionState) (log : List String)
    (h : closeRun s save1 = (.ok (), s1, log)) :
    closeRun s1 save2 =
      (.error (.typeError noneIterMsg), { s1 with errors := some [] }, []) := by
  have hc : s1.conns = none := closeRun_ok_conns h
  simp [closeRun, hc]

theorem close_twice_raises_witness :
    closeRun (⟨[], 300000, 100, none, some []⟩ : SessionState) none =
      (.error (.typeError noneIterMsg), ⟨[], 300000, 100, none, some []⟩, []) :=
  close_twice_raises ⟨[], 300000, 100, some [readyConn "a" 1], none⟩ none none
    ⟨[], 300000, 100, none, some []⟩ ["a"] rfl

/-- Claim C7: during close(), a DSError raised by the optional workspace
save or by disconnect() of any connection is swallowed silently: the loop
still visits every remaining connection (the log below records the
disconnect calls made, skipping only the disconnect of a connection whose
save step raised), close() returns normally, and self.conns is cleared
unconditionally after the loop. -/
theorem close_swallows_dserrors (s : SessionState) (cs : List Conn)
    (save : Option String)
    (hconns : s.conns = some cs)
    (hok : ∀ c ∈ cs, okOrDS c.saveWsErr = true ∧ okOrDS c.disconnectErr = true) :
    closeRun s save =
      (.ok (), { s with conns := none, errors := some [] },
       (cs.filter (fun c => save.isNone || c.saveWsErr.isNone)).map Conn.name) := by
  have hloop := closeLoop_all_caught save cs []
    (fun c hc => ⟨fun w _ => (hok c hc).1, (hok c hc).2⟩)
  simp [closeRun, hconns, hloop]

theorem close_swallows_dserrors_witness :
    closeRun (⟨[], 1, 1,
      some [readyConn "a" 1,
        ⟨"b", "b-sess", true, none, fun _ => .ok true,
          some (.dsError "save failed"), none, none, 0, .ok 0⟩,
        dsErrorDisconnectConn "c"], none⟩ : SessionState) (some "w") =
      (.ok (), ⟨[], 1, 1, none, some []⟩, ["a", "c"]) :=
  close_swallows_dserrors
    ⟨[], 1, 1,
      some [readyConn "a" 1,
        ⟨"b", "b-sess", true, none, fun _ => .ok true,
          some (.dsError "save failed"), none, none, 0, .ok 0⟩,
        dsErrorDisconnectConn "c"], none⟩
    [readyConn "a" 1,
      ⟨"b", "b-sess", true, none, fun _ => .ok true,
        some (.dsError "save failed"), none, none, 0, .ok 0⟩,
      dsErrorDisconnectConn "c"]
    (some "w") rfl
    (by
      intro c hc
      simp only [List.mem_cons, List.mem_singleton] at hc
      rcases hc with h | h | h | h
      · subst h; constructor <;> rfl
      · subst h; constructor <;> rfl
      · subst h; constructor <;> rfl
      · cases h)

/-- Claim C9: on a fresh session (open never called) and after a completed
close(), self.conns is None; in that state get_connection_names() returns
the empty list (None is falsy) while has_connections() raises a TypeError,
because it applies len to None instead of returning False — the two status
accessors are not total on the same states. -/
theorem accessors_not_total_on_closed (logins : List DSLoginInfo) (t d : Nat) :
    (mkSession logins t d).conns = none ∧
    (∀ (s s1 : SessionState) (save : Option String) (log : List String),
      closeRun s save = (.ok (), s1, log) → s1.conns = none) ∧
    (∀ s : SessionState, s.conns = none →
      getConnectionNames s = [] ∧
      hasConnections s = .error (.typeError lenNoneMsg)) := by
  refine ⟨rfl, fun s s1 save log h => closeRun_ok_conns h, fun s hs => ?_⟩
  constructor
  · simp [getConnectionNames, hs]
  · simp [hasConnections, hs]

theorem accessors_not_total_on_closed_witness :
    (mkSession [] 300000 100).conns = none ∧
    getConnectionNames (⟨[], 1, 1, none, none⟩ : SessionState) = [] ∧
    hasConnections (⟨[], 1, 1, none, none⟩ : SessionState) =
      .error (.typeError lenNoneMsg) := by
  have h := accessors_not_total_on_closed [] 300000 100
  have h3 := h.2.2 ⟨[], 1, 1, none, none⟩ rfl
  exact ⟨h.1, h3.1, h3.2⟩

theorem openLoop_pre (nc : DSLoginInfo → Option String → Except PyExc Conn)
    (restore : Option String) (failSafe : Bool) (mk : DSLoginInfo → Conn) :
    ∀ (pre rest : List DSLoginInfo) (conns : List Conn)
      (errors : List (String × PyExc)),
      (∀ i ∈ pre, nc i restore = .ok (mk i)) →
      openLoop nc restore failSafe (pre ++ rest) conns errors =
        openLoop nc restore failSafe rest (conns ++ pre.map mk) errors := by
  intro pre
  induction pre with
  | nil => intro rest conns errors _; simp
  | cons i tail ih =>
    intro rest conns errors hpre
    have hi := hpre i (List.mem_cons_self i tail)
    have htail := fun x hx => hpre x (List.mem_cons_of_mem i hx)
    simp only [List.cons_append, openLoop, hi, List.append_eq]
    rw [ih rest (conns ++ [mk i]) errors htail]
    simp

/-- Claim C4: open() with failSafe=false: when instantiating the connection
for login K fails after logins 1..K-1 opened successfully (and their
disconnects raise at most DSError), the already-opened connections are all
disconnected in order (the log), the triggering error propagates, and the
session retains no open connections (self.conns is None, self.errors was
reset to empty by the close() call). -/
theorem open_failfast (nc : DSLoginInfo → Option String → Except PyExc Conn)
    (s : SessionState) (restore : Option String)
    (pre rest : List DSLoginInfo) (bad : DSLoginInfo) (e : PyExc)
    (mk : DSLoginInfo → Conn)
    (hlog : s.logins = pre ++ bad :: rest)
    (hpre : ∀ i ∈ pre, nc i restore = .ok (mk i))
    (hds : ∀ i ∈ pre, okOrDS (mk i).disconnectErr = true)
    (hbad : nc bad restore = .error e) :
    openRun nc s restore false =
      (.error e, { s with conns := none, errors := some [] },
       (pre.map mk).map Conn.name) := by
  have hstep := openLoop_pre nc restore false mk pre (bad :: rest) [] [] hpre
  have hclose : closeLoop none (pre.map mk) [] =
      (.ok (), [] ++ ((pre.map mk).filter
        (fun c => (none : Option String).isNone || c.saveWsErr.isNone)).map Conn.name) := by
    refine closeLoop_all_caught none (pre.map mk) [] ?_
    intro c hc
    obtain ⟨i, hi, hic⟩ := List.mem_map.mp hc
    subst hic
    exact ⟨fun w hw => Option.noConfusion hw, hds i hi⟩
  have hfilter : (pre.map mk).filter
      (fun c => (none : Option String).isNone || c.saveWsErr.isNone) = pre.map mk := by
    apply List.filter_eq_self.mpr
    intro c _
    simp
  rw [hfilter] at hclose
  simp only [openRun, hlog, hstep, List.nil_append, openLoop, hbad,
    Bool.false_eq_true, if_false, hclose]

theorem open_failfast_witness :
    openRun
      (fun i _ => if i.name == "bad" then .error (.exc "boom")
        else .ok (readyConn i.name 0))
      ⟨[⟨"a", "u", some "x", none, none, "default", "d"⟩,
        ⟨"bad", "u", some "x", none, none, "default", "d"⟩,
        ⟨"c", "u", some "x", none, none, "default", "d"⟩],
       300000, 100, none, none⟩
      none false =
      (.error (.exc "boom"),
       ⟨[⟨"a", "u", some "x", none, none, "default", "d"⟩,
         ⟨"bad", "u", some "x", none, none, "default", "d"⟩,
         ⟨"c", "u", some "x", none, none, "default", "d"⟩],
        300000, 100, none, some []⟩,
       ["a"]) := by
  have h := open_failfast
    (fun i _ => if i.name == "bad" then .error (.exc "boom")
      else .ok (readyConn i.name 0))
    ⟨[⟨"a", "u", some "x", none, none, "default", "d"⟩,
      ⟨"bad", "u", some "x", none, none, "default", "d"⟩,
      ⟨"c", "u", some "x", none, none, "default", "d"⟩],
     300000, 100, none, none⟩
    none
    [⟨"a", "u", some "x", none, none, "default", "d"⟩]
    [⟨"c", "u", some "x", none, none, "default", "d"⟩]
    ⟨"bad", "u", some "x", none, none, "default", "d"⟩
    (.exc "boom")
    (fun i => readyConn i.name 0)
    rfl
    (by intro i hi; simp only [List.mem_singleton] at hi; subst hi; rfl)
    (by intro i hi; simp only [List.mem_singleton] at hi; subst hi; rfl)
    rfl
  exact h

/-! ## Session polling lemmas -/

theorem pollFold_eq (p : Nat) :
    ∀ (l : List Conn) (acc : List String × List String),
      l.foldl (pollStep p) acc =
        (acc.1 ++ (l.filter (pollOkTrue p)).map Conn.name,
         acc.2 ++ (l.filter (pollErr p)).map Conn.name) := by
  intro l
  induction l with
  | nil => intro acc; simp
  | cons c rest ih =>
    intro acc
    simp only [List.foldl_cons, ih]
    cases hss : c.sessionStarted p with
    | ok b =>
      cases b with
      | true => simp [pollStep, pollOkTrue, pollErr, hss, List.filter_cons]
      | false => simp [pollStep, pollOkTrue, pollErr, hss, List.filter_cons]
    | error e => simp [pollStep, pollOkTrue, pollErr, hss, List.filter_cons]

theorem pollPass_eq (l : List Conn) (p : Nat) (st ex : List String) :
    pollPass l p st ex =
      (st ++ (l.filter (pollOkTrue p)).map Conn.name,
       ex ++ (l.filter (pollErr p)).map Conn.name) :=
  pollFold_eq p l (st, ex)

theorem startPhase_eq (cs : List Conn) :
    startPhase cs = (cs.filter startFails).map Conn.name := by
  have haux : ∀ (l : List Conn) (acc : List String),
      l.foldl (fun ex c => if startFails c then ex ++ [c.name] else ex) acc =
        acc ++ (l.filter startFails).map Conn.name := by
    intro l
    induction l with
    | nil => intro acc; simp
    | cons c rest ih =>
      intro acc
      cases hsf : startFails c with
      | true => simp [List.foldl_cons, hsf, ih, List.filter_cons]
      | false => simp [List.foldl_cons, hsf, ih, List.filter_cons]
  simpa [startPhase] using haux cs []

theorem name_inj {cs : List Conn} (hnd : (cs.map Conn.name).Nodup)
    {a b : Conn} (ha : a ∈ cs) (hb : b ∈ cs) (h : a.name = b.name) : a = b :=
  List.inj_on_of_nodup_map hnd ha hb h

theorem pollOkTrue_not_err {p : Nat} {c : Conn}
    (h1 : pollOkTrue p c = true) (h2 : pollErr p c = true) : False := by
  cases hss : c.sessionStarted p with
  | ok b => simp [pollErr, hss] at h2
  | error e => simp [pollOkTrue, hss] at h1

theorem mapFilter_nodup {cs : List Conn} (hnd : (cs.map Conn.name).Nodup)
    {l : List Conn} (hl : l.Sublist cs) (q : Conn → Bool) :
    ((l.filter q).map Conn.name).Nodup :=
  (((List.filter_sublist l).trans hl).map Conn.name).nodup hnd

theorem pollPair_nodup {cs : List Conn} (hnd : (cs.map Conn.name).Nodup)
    {l : List Conn} (hl : l.Sublist cs) (p : Nat) :
    ((l.filter (pollOkTrue p)).map Conn.name ++
      (l.filter (pollErr p)).map Conn.name).Nodup := by
  rw [List.nodup_append]
  refine ⟨mapFilter_nodup hnd hl _, mapFilter_nodup hnd hl _, ?_⟩
  intro x hxA hxB
  obtain ⟨c1, hc1, hc1n⟩ := List.mem_map.mp hxA
  obtain ⟨c2, hc2, hc2n⟩ := List.mem_map.mp hxB
  obtain ⟨hc1l, hc1q⟩ := List.mem_filter.mp hc1
  obtain ⟨hc2l, hc2q⟩ := List.mem_filter.mp hc2
  have : c1 = c2 :=
    name_inj hnd (hl.subset hc1l) (hl.subset hc2l) (hc1n.trans hc2n.symm)
  subst this
  exact pollOkTrue_not_err hc1q hc2q

theorem remaining_mem {cs : List Conn} {st ex : List String} {d : Conn}
    (hd : d ∈ cs.filter (fun c => !(st.contains c.name) && !(ex.contains c.name))) :
    d ∈ cs ∧ d.name ∉ st ∧ d.name ∉ ex := by
  obtain ⟨h1, h2⟩ := List.mem_filter.mp hd
  simp only [Bool.and_eq_true, Bool.not_eq_true'] at h2
  have ha := h2.1
  have hb := h2.2
  simp at ha hb
  exact ⟨h1, ha, hb⟩

theorem pollNew_facts {cs : List Conn} (hnd : (cs.map Conn.name).Nodup)
    {st ex : List String} {pass : Nat} {x : String}
    (hx : x ∈ ((cs.filter (fun c => !(st.contains c.name) &&
          !(ex.contains c.name))).filter (pollOkTrue pass)).map Conn.name ∨
        x ∈ ((cs.filter (fun c => !(st.contains c.name) &&
          !(ex.contains c.name))).filter (pollErr pass)).map Conn.name) :
    (∃ d ∈ cs, d.name = x ∧
      (pollOkTrue pass d = true ∨ pollErr pass d = true)) ∧
    x ∉ st ∧ x ∉ ex := by
  rcases hx with hx | hx
  · obtain ⟨d, hd, hdx⟩ := List.mem_map.mp hx
    obtain ⟨hdl, hdq⟩ := List.mem_filter.mp hd
    obtain ⟨hdc, hdst, hdex⟩ := remaining_mem hdl
    exact ⟨⟨d, hdc, hdx, Or.inl hdq⟩, hdx ▸ hdst, hdx ▸ hdex⟩
  · obtain ⟨d, hd, hdx⟩ := List.mem_map.mp hx
    obtain ⟨hdl, hdq⟩ := List.mem_filter.mp hd
    obtain ⟨hdc, hdst, hdex⟩ := remaining_mem hdl
    exact ⟨⟨d, hdc, hdx, Or.inr hdq⟩, hdx ▸ hdst, hdx ▸ hdex⟩

theorem loop_cond_holds {cs : List Conn} {c : Conn} (hc : c ∈ cs)
    (hnd : (cs.map Conn.name).Nodup) {st ex : List String}
    (hnodup : (st ++ ex).Nodup) (hsub : ∀ x ∈ st ++ ex, x ∈ cs.map Conn.name)
    (hcn : c.name ∉ st ++ ex) :
    (st.length : Int) < (cs.length : Int) - (ex.length : Int) := by
  have hsub2 : (st ++ ex) ⊆ (cs.map Conn.name).erase c.name := by
    intro x hx
    have hne : x ≠ c.name := fun h => hcn (h ▸ hx)
    exact (List.mem_erase_of_ne hne).mpr (hsub x hx)
  have hlen : (st ++ ex).length ≤ ((cs.map Conn.name).erase c.name).length :=
    (List.subperm_of_subset hnodup hsub2).length_le
  have hcm : c.name ∈ cs.map Conn.name := List.mem_map_of_mem Conn.name hc
  have herase : ((cs.map Conn.name).erase c.name).length = cs.length - 1 := by
    rw [List.length_erase_of_mem hcm, List.length_map]
  have hpos : 0 < cs.length := List.length_pos_of_mem hc
  rw [List.length_append, herase] at hlen
  omega

theorem waitLoopAux_timeout {cs : List Conn} {timeout delay : Nat} {c : Conn}
    (hc : c ∈ cs) (hnd : (cs.map Conn.name).Nodup)
    (hnever : ∀ p, c.sessionStarted p = .ok false) :
    ∀ (fuel : Nat) (st ex : List String) (elapsed pass : Nat),
      (st ++ ex).Nodup →
      (∀ x ∈ st ++ ex, x ∈ cs.map Conn.name) →
      c.name ∉ st ++ ex →
      timeout + 1 ≤ elapsed + fuel * delay →
      waitLoopAux cs timeout delay fuel st ex elapsed pass =
        .error (.dsError timeoutMsg) := by
  intro fuel
  induction fuel with
  | zero =>
    intro st ex elapsed pass hnodup hsub hcn harith
    have hcond := loop_cond_holds hc hnd hnodup hsub hcn
    have htime : timeout < elapsed := by omega
    rw [waitLoopAux, if_pos hcond, if_pos htime]
  | succ f ih =>
    intro st ex elapsed pass hnodup hsub hcn harith
    have hcond := loop_cond_holds hc hnd hnodup hsub hcn
    by_cases htime : timeout < elapsed
    · rw [waitLoopAux, if_pos hcond, if_pos htime]
    · rw [waitLoopAux, if_pos hcond, if_neg htime]
      have hLsub : (cs.filter (fun d => !(st.contains d.name) &&
          !(ex.contains d.name))).Sublist cs := List.filter_sublist cs
      have hstA : (st ++ ((cs.filter (fun d => !(st.contains d.name) &&
          !(ex.contains d.name))).filter (pollOkTrue pass)).map Conn.name).Nodup := by
        rw [List.nodup_append]
        refine ⟨(List.nodup_append.mp hnodup).1, mapFilter_nodup hnd hLsub _, ?_⟩
        intro x hxst hxA
        exact (pollNew_facts hnd (Or.inl hxA)).2.1 hxst
      have hexB : (ex ++ ((cs.filter (fun d => !(st.contains d.name) &&
          !(ex.contains d.name))).filter (pollErr pass)).map Conn.name).Nodup := by
        rw [List.nodup_append]
        refine ⟨(List.nodup_append.mp hnodup).2.1, mapFilter_nodup hnd hLsub _, ?_⟩
        intro x hxex hxB
        exact (pollNew_facts hnd (Or.inr hxB)).2.2 hxex
      have hAB := pollPair_nodup hnd hLsub pass
      have hdisjAB := (List.nodup_append.mp hAB).2.2
      have hdisjold := (List.nodup_append.mp hnodup).2.2
      have inv1 : ((st ++ ((cs.filter (fun d => !(st.contains d.name) &&
            !(ex.contains d.name))).filter (pollOkTrue pass)).map Conn.name) ++
          (ex ++ ((cs.filter (fun d => !(st.contains d.name) &&
            !(ex.contains d.name))).filter (pollErr pass)).map Conn.name)).Nodup := by
        rw [List.nodup_append]
        refine ⟨hstA, hexB, ?_⟩
        intro x hx1 hx2
        rcases List.mem_append.mp hx1 with hxst | hxA
        · rcases List.mem_append.mp hx2 with hxex | hxB
          · exact hdisjold hxst hxex
          · exact (pollNew_facts hnd (Or.inr hxB)).2.1 hxst
        · rcases List.mem_append.mp hx2 with hxex | hxB
          · exact (pollNew_facts hnd (Or.inl hxA)).2.2 hxex
          · exact hdisjAB hxA hxB
      have inv2 : ∀ x ∈ (st ++ ((cs.filter (fun d => !(st.contains d.name) &&
            !(ex.contains d.name))).filter (pollOkTrue pass)).map Conn.name) ++
          (ex ++ ((cs.filter (fun d => !(st.contains d.name) &&
            !(ex.contains d.name))).filter (pollErr pass)).map Conn.name),
          x ∈ cs.map Conn.name := by
        intro x hx
        rcases List.mem_append.mp hx with hx1 | hx2
        · rcases List.mem_append.mp hx1 with hxst | hxA
          · exact hsub x (List.mem_append_left ex hxst)
          · obtain ⟨⟨d, hdc, hdx, -⟩, -, -⟩ := pollNew_facts hnd (Or.inl hxA)
            exact hdx ▸ List.mem_map_of_mem Conn.name hdc
        · rcases List.mem_append.mp hx2 with hxex | hxB
          · exact hsub x (List.mem_append_right st hxex)
          · obtain ⟨⟨d, hdc, hdx, -⟩, -, -⟩ := pollNew_facts hnd (Or.inr hxB)
            exact hdx ▸ List.mem_map_of_mem Conn.name hdc
      have inv3 : c.name ∉ (st ++ ((cs.filter (fun d => !(st.contains d.name) &&
            !(ex.contains d.name))).filter (pollOkTrue pass)).map Conn.name) ++
          (ex ++ ((cs.filter (fun d => !(st.contains d.name) &&
            !(ex.contains d.name))).filter (pollErr pass)).map Conn.name) := by
        intro hx
        have hcnew : ∀ (hq : pollOkTrue pass c = true ∨ pollErr pass c = true), False := by
          intro hq
          rcases hq with hq | hq
          · simp [pollOkTrue, hnever pass] at hq
          · simp [pollErr, hnever pass] at hq
        rcases List.mem_append.mp hx with hx1 | hx2
        · rcases List.mem_append.mp hx1 with hxst | hxA
          · exact hcn (List.mem_append_left ex hxst)
          · obtain ⟨⟨d, hdc, hdx, hdq⟩, -, -⟩ := pollNew_facts hnd (Or.inl hxA)
            have : d = c := name_inj hnd hdc hc hdx
            subst this
            exact hcnew hdq
        · rcases List.mem_append.mp hx2 with hxex | hxB
          · exact hcn (List.mem_append_right st hxex)
          · obtain ⟨⟨d, hdc, hdx, hdq⟩, -, -⟩ := pollNew_facts hnd (Or.inr hxB)
            have : d = c := name_inj hnd hdc hc hdx
            subst this
            exact hcnew hdq
      have harith2 : timeout + 1 ≤ (elapsed + delay) + f * delay := by
        rw [Nat.succ_mul] at harith
        generalize f * delay = q at harith ⊢
        omega
      have hgoal := ih _ _ (elapsed + delay) (pass + 1) inv1 inv2 inv3 harith2
      show waitLoopAux cs timeout delay f
        (pollPass (cs.filter (fun d => !(st.contains d.name) &&
          !(ex.contains d.name))) pass st ex).1
        (pollPass (cs.filter (fun d => !(st.contains d.name) &&
          !(ex.contains d.name))) pass st ex).2
        (elapsed + delay) (pass + 1) = .error (.dsError timeoutMsg)
      rw [pollPass_eq]
      exact hgoal

theorem fuel_bound (timeout delay : Nat) (hdel : 1 ≤ delay) :
    timeout + 1 ≤ 0 + (timeout / delay + 1) * delay := by
  have h1 := Nat.div_add_mod timeout delay
  have h2 : timeout % delay < delay := Nat.mod_lt _ (by omega)
  rw [Nat.succ_mul]
  have h3 : timeout / delay * delay = delay * (timeout / delay) :=
    Nat.mul_comm _ _
  rw [h3]
  generalize delay * (timeout / delay) = q at h1 ⊢
  omega

/-- Claim C5: in DSSession.sessions, if a connection keeps answering "not
started" (and never raises), the wait loop keeps polling and, once the
elapsed time exceeds the configured start_timeout, the whole call fails by
raising DSError("Timed out waiting for R sessions to start") — no partial
result, and the connection list is left as it was.  The constructor defaults
are 300 s timeout and 0.1 s re-poll delay (300000 and 100 ms). -/
theorem sessions_timeout (s : SessionState) (cs : List Conn) (c : Conn)
    (hconns : s.conns = some cs) (hnd : (cs.map Conn.name).Nodup)
    (hdel : 1 ≤ s.startDelay) (hc : c ∈ cs) (hcs : c.hasSession = true)
    (hnever : ∀ p, c.sessionStarted p = .ok false) :
    sessionsRun s = (.error (.dsError timeoutMsg), { s with errors := some [] }) ∧
    (mkSessionDefault s.logins).startTimeout = 300000 ∧
    (mkSessionDefault s.logins).startDelay = 100 := by
  refine ⟨?_, rfl, rfl⟩
  have hcnotsf : startFails c = false := by
    simp [startFails, hcs]
  have hl0sub : (cs.filter (fun d =>
      !((startPhase cs).contains d.name))).Sublist cs := List.filter_sublist cs
  have hmemA0B0 : ∀ x,
      (x ∈ ((cs.filter (fun d => !((startPhase cs).contains d.name))).filter
          (pollOkTrue 0)).map Conn.name ∨
       x ∈ ((cs.filter (fun d => !((startPhase cs).contains d.name))).filter
          (pollErr 0)).map Conn.name) →
      ∃ d ∈ cs, d.name = x ∧ x ∉ startPhase cs ∧
        (pollOkTrue 0 d = true ∨ pollErr 0 d = true) := by
    intro x hx
    rcases hx with hx | hx
    · obtain ⟨d, hd, hdx⟩ := List.mem_map.mp hx
      obtain ⟨hdl, hdq⟩ := List.mem_filter.mp hd
      obtain ⟨hdc, hdcond⟩ := List.mem_filter.mp hdl
      have hdnotex : d.name ∉ startPhase cs := by
        simp only [Bool.not_eq_true'] at hdcond
        simpa using hdcond
      exact ⟨d, hdc, hdx, hdx ▸ hdnotex, Or.inl hdq⟩
    · obtain ⟨d, hd, hdx⟩ := List.mem_map.mp hx
      obtain ⟨hdl, hdq⟩ := List.mem_filter.mp hd
      obtain ⟨hdc, hdcond⟩ := List.mem_filter.mp hdl
      have hdnotex : d.name ∉ startPhase cs := by
        simp only [Bool.not_eq_true'] at hdcond
        simpa using hdcond
      exact ⟨d, hdc, hdx, hdx ▸ hdnotex, Or.inr hdq⟩
  have hex0nodup : (startPhase cs).Nodup := by
    rw [startPhase_eq]
    exact mapFilter_nodup hnd (List.Sublist.refl cs) startFails
  have hex0sub : ∀ x ∈ startPhase cs, x ∈ cs.map Conn.name := by
    rw [startPhase_eq]
    intro x hx
    obtain ⟨d, hd, hdx⟩ := List.mem_map.mp hx
    exact hdx ▸ List.mem_map_of_mem Conn.name (List.mem_filter.mp hd).1
  have hcnotex0 : c.name ∉ startPhase cs := by
    rw [startPhase_eq]
    intro hx
    obtain ⟨d, hd, hdx⟩ := List.mem_map.mp hx
    obtain ⟨hdc, hdq⟩ := List.mem_filter.mp hd
    have : d = c := name_inj hnd hdc hc hdx
    subst this
    rw [hcnotsf] at hdq
    cases hdq
  have hcnever : ∀ (hq : pollOkTrue 0 c = true ∨ pollErr 0 c = true), False := by
    intro hq
    rcases hq with hq | hq
    · simp [pollOkTrue, hnever 0] at hq
    · simp [pollErr, hnever 0] at hq
  have hAB := pollPair_nodup hnd hl0sub 0
  have inv1 : ((((cs.filter (fun d => !((startPhase cs).contains d.name))).filter
        (pollOkTrue 0)).map Conn.name) ++
      (startPhase cs ++ ((cs.filter (fun d => !((startPhase cs).contains d.name))).filter
        (pollErr 0)).map Conn.name)).Nodup := by
    rw [List.nodup_append]
    refine ⟨mapFilter_nodup hnd hl0sub _, ?_, ?_⟩
    · rw [List.nodup_append]
      refine ⟨hex0nodup, mapFilter_nodup hnd hl0sub _, ?_⟩
      intro x hx1 hx2
      obtain ⟨d, hdc, hdx, hdnotex, -⟩ := hmemA0B0 x (Or.inr hx2)
      exact hdnotex hx1
    · intro x hxA hx2
      rcases List.mem_append.mp hx2 with hxex | hxB
      · obtain ⟨d, hdc, hdx, hdnotex, -⟩ := hmemA0B0 x (Or.inl hxA)
        exact hdnotex hxex
      · exact (List.nodup_append.mp hAB).2.2 hxA hxB
  have inv2 : ∀ x ∈ (((cs.filter (fun d => !((startPhase cs).contains d.name))).filter
        (pollOkTrue 0)).map Conn.name) ++
      (startPhase cs ++ ((cs.filter (fun d => !((startPhase cs).contains d.name))).filter
        (pollErr 0)).map Conn.name), x ∈ cs.map Conn.name := by
    intro x hx
    rcases List.mem_append.mp hx with hx1 | hx2
    · obtain ⟨d, hdc, hdx, -, -⟩ := hmemA0B0 x (Or.inl hx1)
      exact hdx ▸ List.mem_map_of_mem Conn.name hdc
    · rcases List.mem_append.mp hx2 with hxex | hxB
      · exact hex0sub x hxex
      · obtain ⟨d, hdc, hdx, -, -⟩ := hmemA0B0 x (Or.inr hxB)
        exact hdx ▸ List.mem_map_of_mem Conn.name hdc
  have inv3 : c.name ∉ (((cs.filter (fun d => !((startPhase cs).contains d.name))).filter
        (pollOkTrue 0)).map Conn.name) ++
      (startPhase cs ++ ((cs.filter (fun d => !((startPhase cs).contains d.name))).filter
        (pollErr 0)).map Conn.name) := by
    intro hx
    rcases List.mem_append.mp hx with hx1 | hx2
    · obtain ⟨d, hdc, hdx, -, hdq⟩ := hmemA0B0 _ (Or.inl hx1)
      have : d = c := name_inj hnd hdc hc hdx
      subst this
      exact hcnever hdq
    · rcases List.mem_append.mp hx2 with hxex | hxB
      · exact hcnotex0 hxex
      · obtain ⟨d, hdc, hdx, -, hdq⟩ := hmemA0B0 _ (Or.inr hxB)
        have : d = c := name_inj hnd hdc hc hdx
        subst this
        exact hcnever hdq
  have hwl : waitLoopAux cs s.startTimeout s.startDelay
      (s.startTimeout / s.startDelay + 1)
      (pollPass (cs.filter (fun d => !((startPhase cs).contains d.name)))
        0 [] (startPhase cs)).1
      (pollPass (cs.filter (fun d => !((startPhase cs).contains d.name)))
        0 [] (startPhase cs)).2
      0 1 = .error (.dsError timeoutMsg) := by
    rw [pollPass_eq]
    exact waitLoopAux_timeout hc hnd hnever _ _ _ _ _ inv1 inv2 inv3
      (fuel_bound s.startTimeout s.startDelay hdel)
  simp only [sessionsRun, hconns, hwl]

theorem sessions_timeout_witness :
    sessionsRun (⟨[], 0, 1, some [neverStartsConn "b"], none⟩ : SessionState) =
      (.error (.dsError timeoutMsg),
       ⟨[], 0, 1, some [neverStartsConn "b"], some []⟩) ∧
    (mkSessionDefault []).startTimeout = 300000 ∧
    (mkSessionDefault []).startDelay = 100 :=
  sessions_timeout ⟨[], 0, 1, some [neverStartsConn "b"], none⟩
    [neverStartsConn "b"] (neverStartsConn "b") rfl (by decide)
    (by decide) (List.mem_cons_self _ _) rfl (fun p => rfl)

theorem waitLoopAux_ex_mono (cs : List Conn) (timeout delay : Nat) :
    ∀ (fuel : Nat) (st ex : List String) (elapsed pass : Nat)
      (stF exF : List String),
      waitLoopAux cs timeout delay fuel st ex elapsed pass = .ok (stF, exF) →
      ∀ x, x ∈ ex → x ∈ exF := by
  intro fuel
  induction fuel with
  | zero =>
    intro st ex elapsed pass stF exF h x hx
    rw [waitLoopAux] at h
    by_cases hcond : (st.length : Int) < (cs.length : Int) - (ex.length : Int)
    · rw [if_pos hcond] at h
      by_cases htime : timeout < elapsed
      · rw [if_pos htime] at h
        simp at h
      · rw [if_neg htime] at h
        simp at h
    · rw [if_neg hcond] at h
      simp only [Except.ok.injEq, Prod.mk.injEq] at h
      obtain ⟨-, h2⟩ := h
      exact h2 ▸ hx
  | succ f ih =>
    intro st ex elapsed pass stF exF h x hx
    rw [waitLoopAux] at h
    by_cases hcond : (st.length : Int) < (cs.length : Int) - (ex.length : Int)
    · rw [if_pos hcond] at h
      by_cases htime : timeout < elapsed
      · rw [if_pos htime] at h
        simp at h
      · rw [if_neg htime] at h
        refine ih _ _ _ _ _ _ h x ?_
        rw [pollPass_eq]
        exact List.mem_append_left _ hx
    · rw [if_neg hcond] at h
      simp only [Except.ok.injEq, Prod.mk.injEq] at h
      obtain ⟨-, h2⟩ := h
      exact h2 ▸ hx

theorem waitLoopAux_cases (cs : List Conn) (timeout delay : Nat) :
    ∀ (fuel : Nat) (st ex : List String) (elapsed pass : Nat),
      (∃ stF exF,
        waitLoopAux cs timeout delay fuel st ex elapsed pass = .ok (stF, exF)) ∨
      waitLoopAux cs timeout delay fuel st ex elapsed pass =
        .error (.dsError timeoutMsg) ∨
      waitLoopAux cs timeout delay fuel st ex elapsed pass =
        .error (.exc fuelMsg) := by
  intro fuel
  induction fuel with
  | zero =>
    intro st ex elapsed pass
    rw [waitLoopAux]
    by_cases hcond : (st.length : Int) < (cs.length : Int) - (ex.length : Int)
    · rw [if_pos hcond]
      by_cases htime : timeout < elapsed
      · rw [if_pos htime]
        exact Or.inr (Or.inl rfl)
      · rw [if_neg htime]
        exact Or.inr (Or.inr rfl)
    · rw [if_neg hcond]
      exact Or.inl ⟨st, ex, rfl⟩
  | succ f ih =>
    intro st ex elapsed pass
    rw [waitLoopAux]
    by_cases hcond : (st.length : Int) < (cs.length : Int) - (ex.length : Int)
    · rw [if_pos hcond]
      by_cases htime : timeout < elapsed
      · rw [if_pos htime]
        exact Or.inr (Or.inl rfl)
      · rw [if_neg htime]
        exact ih _ _ (elapsed + delay) (pass + 1)
    · rw [if_neg hcond]
      exact Or.inl ⟨st, ex, rfl⟩

theorem waitLoopAux_not_fuel (cs : List Conn) (timeout delay : Nat) :
    ∀ (fuel : Nat) (st ex : List String) (elapsed pass : Nat),
      timeout + 1 ≤ elapsed + fuel * delay →
      waitLoopAux cs timeout delay fuel st ex elapsed pass ≠
        .error (.exc fuelMsg) := by
  intro fuel
  induction fuel with
  | zero =>
    intro st ex elapsed pass harith
    rw [waitLoopAux]
    by_cases hcond : (st.length : Int) < (cs.length : Int) - (ex.length : Int)
    · rw [if_pos hcond]
      have htime : timeout < elapsed := by omega
      rw [if_pos htime]
      intro h
      injection h with h2
      exact PyExc.noConfusion h2
    · rw [if_neg hcond]
      intro h
      exact Except.noConfusion h
  | succ f ih =>
    intro st ex elapsed pass harith
    rw [waitLoopAux]
    by_cases hcond : (st.length : Int) < (cs.length : Int) - (ex.length : Int)
    · rw [if_pos hcond]
      by_cases htime : timeout < elapsed
      · rw [if_pos htime]
        intro h
        injection h with h2
        exact PyExc.noConfusion h2
      · rw [if_neg htime]
        refine ih _ _ (elapsed + delay) (pass + 1) ?_
        rw [Nat.succ_mul] at harith
        generalize f * delay = q at harith ⊢
        omega
    · rw [if_neg hcond]
      intro h
      exact Except.noConfusion h

/-- Claim C2 counterexample: with two connections where "a" fails to start
(excluded) and "b" never reports started, the wait loop times out; the
timed-out sessions() call raises before applying exclusions, so the
excluded connection "a" is still listed by get_connection_names()
afterwards — the exclusion was not permanent. -/
theorem sessions_exclusion_counterexample :
    (sessionsRun (⟨[], 0, 1,
      some [failStartConn "a", neverStartsConn "b"], none⟩ : SessionState)).1 =
      .error (.dsError timeoutMsg) ∧
    getConnectionNames
      (sessionsRun (⟨[], 0, 1,
        some [failStartConn "a", neverStartsConn "b"], none⟩ : SessionState)).2 =
      ["a", "b"] := by
  constructor
  · rfl
  · rfl

/-- Claim C2 amended: a connection excluded during a sessions() call
(session-start failure or status-check failure) is permanently removed from
the live connection list provided the call's start-wait completes (the call
does not raise the timeout error): afterwards get_connection_names() no
longer lists it and every subsequent batch operation, which iterates
self.conns, no longer touches it.  When the wait loop times out, the call
raises before the exclusions are applied and the connection list is left
unchanged. -/
theorem sessions_exclusion_permanent (s : SessionState) (cs : List Conn)
    (c : Conn) (res : Except PyExc (List (String × String)))
    (s2 : SessionState)
    (hconns : s.conns = some cs) (hnd : (cs.map Conn.name).Nodup)
    (hdel : 1 ≤ s.startDelay) (hc : c ∈ cs)
    (hexc : startFails c = true ∨
      (startFails c = false ∧ ∃ e, c.sessionStarted 0 = Except.error e))
    (hres : sessionsRun s = (res, s2))
    (hnt : res ≠ .error (.dsError timeoutMsg)) :
    c.name ∉ getConnectionNames s2 ∧
    ∀ cs2, s2.conns = some cs2 → ∀ d ∈ cs2, d.name ≠ c.name := by
  simp only [sessionsRun, hconns] at hres
  have hex1 : c.name ∈ (pollPass (cs.filter
      (fun d => !((startPhase cs).contains d.name))) 0 [] (startPhase cs)).2 := by
    rw [pollPass_eq]
    rcases hexc with hsf | ⟨hsf, e, herr⟩
    · apply List.mem_append_left
      rw [startPhase_eq]
      exact List.mem_map_of_mem Conn.name (List.mem_filter.mpr ⟨hc, hsf⟩)
    · apply List.mem_append_right
      apply List.mem_map_of_mem
      apply List.mem_filter.mpr
      refine ⟨List.mem_filter.mpr ⟨hc, ?_⟩, ?_⟩
      · have hnotex0 : c.name ∉ startPhase cs := by
          rw [startPhase_eq]
          intro hx
          obtain ⟨d, hdm, hdx⟩ := List.mem_map.mp hx
          obtain ⟨hdc, hdq⟩ := List.mem_filter.mp hdm
          have : d = c := name_inj hnd hdc hc hdx
          subst this
          rw [hsf] at hdq
          cases hdq
        simpa using hnotex0
      · simp [pollErr, herr]
  rcases waitLoopAux_cases cs s.startTimeout s.startDelay
      (s.startTimeout / s.startDelay + 1)
      (pollPass (cs.filter (fun d => !((startPhase cs).contains d.name)))
        0 [] (startPhase cs)).1
      (pollPass (cs.filter (fun d => !((startPhase cs).contains d.name)))
        0 [] (startPhase cs)).2
      0 1 with ⟨stF, exF, hwl⟩ | hwl | hwl
  · -- the wait loop completed
    have hexF : c.name ∈ exF :=
      waitLoopAux_ex_mono cs s.startTimeout s.startDelay _ _ _ _ _ _ _ hwl
        c.name hex1
    have hlen : 0 < exF.length := List.length_pos_of_mem hexF
    simp only [hwl] at hres
    rw [if_pos hlen] at hres
    have hs2conns : s2.conns =
        some (cs.filter (fun d => !(exF.contains d.name))) := by
      by_cases hz : (cs.filter (fun d => !(exF.contains d.name))).length = 0
      · rw [if_pos hz] at hres
        simp only [Prod.mk.injEq] at hres
        rw [← hres.2]
      · rw [if_neg hz] at hres
        simp only [Prod.mk.injEq] at hres
        rw [← hres.2]
    have hfilt : ∀ d ∈ cs.filter (fun d => !(exF.contains d.name)),
        d.name ≠ c.name := by
      intro d hd hdn
      obtain ⟨-, hcond⟩ := List.mem_filter.mp hd
      simp only [Bool.not_eq_true'] at hcond
      have : d.name ∉ exF := by simpa using hcond
      exact this (hdn ▸ hexF)
    constructor
    · simp only [getConnectionNames, hs2conns]
      by_cases hemp : (cs.filter (fun d => !(exF.contains d.name))).isEmpty = true
      · rw [if_pos hemp]
        exact List.not_mem_nil _
      · rw [if_neg hemp]
        intro hx
        obtain ⟨d, hd, hdx⟩ := List.mem_map.mp hx
        exact hfilt d hd hdx
    · intro cs2 hcs2 d hd
      rw [hs2conns] at hcs2
      injection hcs2 with hcs2
      exact hfilt d (hcs2 ▸ hd)
  · -- timed out: excluded by hypothesis
    simp only [hwl, Prod.mk.injEq] at hres
    exact absurd hres.1.symm hnt
  · -- fuel sentinel: impossible when the delay is positive
    exact absurd hwl
      (waitLoopAux_not_fuel cs s.startTimeout s.startDelay _ _ _ 0 1
        (fuel_bound s.startTimeout s.startDelay hdel))

theorem sessions_exclusion_permanent_witness :
    (failStartConn "a").name ∉ getConnectionNames
      (⟨[], 300000, 100, some [readyConn "b" 1], some []⟩ : SessionState) ∧
    (readyConn "b" 1).name ≠ (failStartConn "a").name := by
  have h := sessions_exclusion_permanent
    ⟨[], 300000, 100, some [failStartConn "a", readyConn "b" 1], none⟩
    [failStartConn "a", readyConn "b" 1] (failStartConn "a")
    (.ok [("b", "b-sess")])
    ⟨[], 300000, 100, some [readyConn "b" 1], some []⟩
    rfl (by decide) (by decide) (List.mem_cons_self _ _)
    (Or.inl rfl) rfl (fun hcontra => Except.noConfusion hcontra)
  exact ⟨h.1, h.2 [readyConn "b" 1] rfl (readyConn "b" 1)
    (List.mem_cons_self _ _)⟩

/-! ## Dict lemmas -/

theorem dictLookup_fresh {α : Type} {m : List (String × α)} {k : String}
    (h : ∀ p ∈ m, p.1 ≠ k) : dictLookup m k = none := by
  induction m with
  | nil => rfl
  | cons p rest ih =>
    obtain ⟨k2, v⟩ := p
    have hp : k2 ≠ k := h (k2, v) (List.mem_cons_self _ rest)
    have hb : (k2 == k) = false := by
      simpa using hp
    rw [dictLookup, hb]
    exact ih (fun p hp2 => h p (List.mem_cons_of_mem _ hp2))

theorem dictLookup_cons_self {α : Type} {m : List (String × α)} {k : String}
    {v : α} : dictLookup ((k, v) :: m) k = some v := by
  rw [dictLookup]
  simp

theorem dictLookup_append_fresh {α : Type} {m1 m2 : List (String × α)}
    {k : String} (h : ∀ p ∈ m1, p.1 ≠ k) :
    dictLookup (m1 ++ m2) k = dictLookup m2 k := by
  induction m1 with
  | nil => rfl
  | cons p rest ih =>
    obtain ⟨k2, v⟩ := p
    have hp : k2 ≠ k := h (k2, v) (List.mem_cons_self _ rest)
    have hb : (k2 == k) = false := by
      simpa using hp
    rw [List.cons_append, dictLookup, hb]
    exact ih (fun p hp2 => h p (List.mem_cons_of_mem _ hp2))

theorem dictLookup_append_left {α : Type} {m1 m2 : List (String × α)}
    {k : String} {v : α} (h : dictLookup m1 k = some v) :
    dictLookup (m1 ++ m2) k = some v := by
  induction m1 with
  | nil => exact Option.noConfusion h
  | cons p rest ih =>
    obtain ⟨k2, w⟩ := p
    rw [List.cons_append, dictLookup]
    rw [dictLookup] at h
    by_cases hb : (k2 == k) = true
    · rw [if_pos hb]
      rw [if_pos hb] at h
      exact h
    · rw [if_neg hb]
      rw [if_neg hb] at h
      exact ih h

theorem dictRemove_fresh {α : Type} {m : List (String × α)} {k : String}
    (h : ∀ p ∈ m, p.1 ≠ k) : dictRemove m k = m :=
  List.filter_eq_self.mpr (fun p hp => by simpa using h p hp)

theorem dictRemove_append {α : Type} (m1 m2 : List (String × α)) (k : String) :
    dictRemove (m1 ++ m2) k = dictRemove m1 k ++ dictRemove m2 k :=
  List.filter_append m1 m2

theorem dictRemove_cons_self {α : Type} (m : List (String × α)) (k : String)
    (v : α) : dictRemove ((k, v) :: m) k = dictRemove m k := by
  rw [dictRemove, List.filter_cons]
  simp [dictRemove]

theorem dictInsert_fresh {α : Type} {m : List (String × α)} {k : String}
    (v : α) (h : ∀ p ∈ m, p.1 ≠ k) : dictInsert m k v = m ++ [(k, v)] := by
  rw [dictInsert, if_neg]
  simp only [List.any_eq_true, not_exists, not_and]
  intro p hp
  simpa using h p hp

theorem dictLookup_mapEntry {α : Type} {l : List Conn}
    (hnd : (l.map Conn.name).Nodup) {c : Conn} (hc : c ∈ l) (f : Conn → α) :
    dictLookup (l.map (fun d => (d.name, f d))) c.name = some (f c) := by
  induction l with
  | nil => cases hc
  | cons d rest ih =>
    rw [List.map_cons, dictLookup]
    by_cases hb : (d.name == c.name) = true
    · rw [if_pos hb]
      have hdc : d.name = c.name := by simpa using hb
      rcases List.mem_cons.mp hc with hceq | hcrest
      · rw [hceq]
      · exfalso
        have : c.name ∈ rest.map Conn.name :=
          List.mem_map_of_mem Conn.name hcrest
        rw [← hdc] at this
        exact (List.nodup_cons.mp hnd).1 this
    · rw [if_neg hb]
      have hdc : d.name ≠ c.name := by simpa using hb
      rcases List.mem_cons.mp hc with hceq | hcrest
      · exact absurd (hceq ▸ rfl) hdc
      · exact ih (List.nodup_cons.mp hnd).2 hcrest

theorem filter_and_perm {α : Type} (p q2 : α → Bool) (l : List α) :
    ((l.filter (fun x => p x && q2 x)) ++
      (l.filter (fun x => p x && !q2 x))).Perm (l.filter p) := by
  induction l with
  | nil => simp
  | cons x rest ih =>
    by_cases hp : p x = true
    · by_cases hq : q2 x = true
      · simp only [List.filter_cons, hp, hq, Bool.and_self, Bool.not_true,
          Bool.and_false, Bool.and_true, if_true, if_false]
        simpa using ih.cons x
      · have hq2 : q2 x = false := by simpa using hq
        simp only [List.filter_cons, hp, hq2, Bool.not_false, Bool.and_false,
          Bool.and_true, if_true, if_false]
        exact List.perm_middle.trans (ih.cons x)
    · have hp2 : p x = false := by simpa using hp
      simp only [List.filter_cons, hp2, Bool.false_and, if_false]
      exact ih

/-! ## Aggregate lemmas -/

theorem sessionsRun_all_ready (s : SessionState) (cs : List Conn)
    (hconns : s.conns = some cs) (hne : cs ≠ [])
    (hnostart : ∀ c ∈ cs, startFails c = false)
    (hok0 : ∀ c ∈ cs, c.sessionStarted 0 = .ok true) :
    sessionsRun s = (.ok (cs.map fun c => (c.name, c.sessionObj)),
      { s with conns := some cs, errors := some [] }) := by
  have hex0 : startPhase cs = [] := by
    rw [startPhase_eq]
    rw [List.filter_eq_nil_iff.mpr (fun c hc => by simp [hnostart c hc])]
    rfl
  have hl0 : cs.filter (fun d => !(([] : List String).contains d.name)) = cs :=
    List.filter_eq_self.mpr (fun c _ => by simp)
  have hpoll : pollPass cs 0 [] [] = (cs.map Conn.name, []) := by
    rw [pollPass_eq]
    have h1 : cs.filter (pollOkTrue 0) = cs :=
      List.filter_eq_self.mpr (fun c hc => by simp [pollOkTrue, hok0 c hc])
    have h2 : cs.filter (pollErr 0) = [] :=
      List.filter_eq_nil_iff.mpr (fun c hc => by simp [pollErr, hok0 c hc])
    rw [h1, h2]
    simp
  have hwl : waitLoopAux cs s.startTimeout s.startDelay
      (s.startTimeout / s.startDelay + 1) (cs.map Conn.name) [] 0 1 =
      .ok (cs.map Conn.name, []) := by
    rw [waitLoopAux]
    have hcond : ¬(((cs.map Conn.name).length : Int) <
        (cs.length : Int) - (([] : List String).length : Int)) := by
      simp
    rw [if_neg hcond]
  have hlen0 : ¬(cs.length = 0) := by
    simpa [List.length_eq_zero] using hne
  have hrval : cs.filter (fun c => (cs.map Conn.name).contains c.name) = cs :=
    List.filter_eq_self.mpr (fun c hc => by
      have : c.name ∈ cs.map Conn.name := List.mem_map_of_mem Conn.name hc
      simpa using this)
  simp only [sessionsRun, hconns, hex0, hl0, hpoll, hwl, hrval]
  simp [hlen0]

theorem aggIssuePhase_all_ok {cs : List Conn}
    (h : ∀ c ∈ cs, c.aggIssueErr = none) :
    aggIssuePhase cs = (cs.map (fun c => (c.name, c.aggHandle)), []) := by
  have haux : ∀ (l : List Conn)
      (acc : List (String × Handle) × List (String × PyExc)),
      (∀ c ∈ l, c.aggIssueErr = none) →
      l.foldl (fun acc c =>
        match c.aggIssueErr with
        | none => (acc.1 ++ [(c.name, c.aggHandle)], acc.2)
        | some e => (acc.1, dictInsert acc.2 c.name e)) acc =
        (acc.1 ++ l.map (fun c => (c.name, c.aggHandle)), acc.2) := by
    intro l
    induction l with
    | nil => intro acc _; simp
    | cons c rest ih =>
      intro acc hl
      have hc := hl c (List.mem_cons_self c rest)
      rw [List.foldl_cons]
      have hstep : (match c.aggIssueErr with
          | none => (acc.1 ++ [(c.name, c.aggHandle)], acc.2)
          | some e => (acc.1, dictInsert acc.2 c.name e)) =
          (acc.1 ++ [(c.name, c.aggHandle)], acc.2) := by
        rw [hc]
      rw [hstep, ih _ (fun x hx => hl x (List.mem_cons_of_mem c hx))]
      simp
  have := haux cs ([], []) h
  simpa [aggIssuePhase] using this

theorem aggIssuePhase_eq {cs : List Conn} (hnd : (cs.map Conn.name).Nodup) :
    aggIssuePhase cs =
      ((cs.filter (fun c => c.aggIssueErr.isNone)).map
        (fun c => (c.name, c.aggHandle)),
       (cs.filter (fun c => c.aggIssueErr.isSome)).map
        (fun c => (c.name, c.aggIssueErr.getD (.exc "")))) := by
  have haux : ∀ (l : List Conn)
      (acc : List (String × Handle) × List (String × PyExc)),
      (l.map Conn.name).Nodup →
      (∀ c ∈ l, ∀ p ∈ acc.2, p.1 ≠ c.name) →
      l.foldl (fun acc c =>
        match c.aggIssueErr with
        | none => (acc.1 ++ [(c.name, c.aggHandle)], acc.2)
        | some e => (acc.1, dictInsert acc.2 c.name e)) acc =
        (acc.1 ++ (l.filter (fun c => c.aggIssueErr.isNone)).map
          (fun c => (c.name, c.aggHandle)),
         acc.2 ++ (l.filter (fun c => c.aggIssueErr.isSome)).map
          (fun c => (c.name, c.aggIssueErr.getD (.exc "")))) := by
    intro l
    induction l with
    | nil => intro acc _ _; simp
    | cons c rest ih =>
      intro acc hl hfresh
      cases hc : c.aggIssueErr with
      | none =>
        simp only [List.foldl_cons, hc]
        rw [ih (acc.1 ++ [(c.name, c.aggHandle)], acc.2)
          (List.nodup_cons.mp hl).2
          (fun x hx p hp => hfresh x (List.mem_cons_of_mem c hx) p hp)]
        simp [List.filter_cons, hc]
      | some e =>
        simp only [List.foldl_cons, hc]
        rw [dictInsert_fresh e (fun p hp =>
          hfresh c (List.mem_cons_self c rest) p hp)]
        rw [ih (acc.1, acc.2 ++ [(c.name, e)])
          (List.nodup_cons.mp hl).2 ?_]
        · simp [List.filter_cons, hc]
        · intro x hx p hp
          rcases List.mem_append.mp hp with hp1 | hp2
          · exact hfresh x (List.mem_cons_of_mem c hx) p hp1
          · simp only [List.mem_singleton] at hp2
            subst hp2
            intro hcontra
            have hcontra2 : c.name = x.name := hcontra
            have : c.name ∈ rest.map Conn.name := by
              rw [hcontra2]
              exact List.mem_map_of_mem Conn.name hx
            exact (List.nodup_cons.mp hl).1 this
  have := haux cs ([], []) hnd (fun c _ p hp => absurd hp (List.not_mem_nil p))
  simpa [aggIssuePhase] using this

theorem doWaitFold_eq (t : Nat) (q : Conn → Bool) (valOf : Conn → Int) :
    ∀ (l : List Conn) (pre : List (String × Handle))
      (errors : List (String × PyExc)) (rval : List (String × Int)),
      (l.map Conn.name).Nodup →
      (∀ c ∈ l, ∀ p ∈ pre, p.1 ≠ c.name) →
      (∀ c ∈ l, q c = true → c.aggFetch = .ok (valOf c)) →
      (∀ c ∈ l, pendAt q t c = true → ∀ p ∈ rval, p.1 ≠ c.name) →
      l.foldl (doWaitStep t)
        (pre ++ (l.filter (pendAt q t)).map (fun c => (c.name, c.aggHandle)),
         errors, rval) =
        (pre ++ (l.filter (pendAt q (t + 1))).map (fun c => (c.name, c.aggHandle)),
         errors,
         rval ++ (l.filter (fun c => pendAt q t c &&
           decide (c.aggCompletedAt ≤ t))).map (fun c => (c.name, valOf c))) := by
  intro l
  induction l with
  | nil => intro pre errors rval _ _ _ _; simp
  | cons c rest ih =>
    intro pre errors rval hnd hpre hfetch hrfresh
    have hndr : (rest.map Conn.name).Nodup := (List.nodup_cons.mp hnd).2
    have hcnotrest : c.name ∉ rest.map Conn.name := (List.nodup_cons.mp hnd).1
    have hprec : ∀ p ∈ pre, p.1 ≠ c.name :=
      hpre c (List.mem_cons_self c rest)
    have hprer : ∀ d ∈ rest, ∀ p ∈ pre, p.1 ≠ d.name :=
      fun d hd => hpre d (List.mem_cons_of_mem c hd)
    have hfetchr : ∀ d ∈ rest, q d = true → d.aggFetch = .ok (valOf d) :=
      fun d hd => hfetch d (List.mem_cons_of_mem c hd)
    have hrfreshr : ∀ d ∈ rest, pendAt q t d = true → ∀ p ∈ rval, p.1 ≠ d.name :=
      fun d hd => hrfresh d (List.mem_cons_of_mem c hd)
    have hrestEfresh : ∀ p ∈ (rest.filter (pendAt q t)).map
        (fun d => (d.name, d.aggHandle)), p.1 ≠ c.name := by
      intro p hp hcontra
      obtain ⟨d, hd, hdp⟩ := List.mem_map.mp hp
      have hdr : d ∈ rest := (List.mem_filter.mp hd).1
      apply hcnotrest
      have : d.name = c.name := by rw [← hdp] at hcontra; exact hcontra
      exact this ▸ List.mem_map_of_mem Conn.name hdr
    rw [List.foldl_cons]
    by_cases hp : pendAt q t c = true
    · have hq : q c = true := by
        have hp2 := hp
        simp only [pendAt, Bool.and_eq_true] at hp2
        exact hp2.1
      rw [List.filter_cons_of_pos hp, List.map_cons]
      by_cases hcomp : c.aggCompletedAt ≤ t
      · -- completed in this pass: fetched and popped
        have hfetchc := hfetch c (List.mem_cons_self c rest) hq
        have hlook : dictLookup (pre ++ ((c.name, c.aggHandle) ::
            (rest.filter (pendAt q t)).map (fun d => (d.name, d.aggHandle))))
            c.name = some c.aggHandle := by
          rw [dictLookup_append_fresh hprec]
          exact dictLookup_cons_self
        have hstep : doWaitStep t
            (pre ++ ((c.name, c.aggHandle) ::
              (rest.filter (pendAt q t)).map (fun d => (d.name, d.aggHandle))),
             errors, rval) c =
            (pre ++ (rest.filter (pendAt q t)).map
              (fun d => (d.name, d.aggHandle)),
             errors, rval ++ [(c.name, valOf c)]) := by
          simp only [doWaitStep, hlook]
          have hcomp2 : c.aggHandle.completedAt ≤ t := hcomp
          rw [if_pos hcomp2]
          simp only [show c.aggHandle.fetchRes = Except.ok (valOf c) from hfetchc]
          rw [dictRemove_append, dictRemove_fresh hprec, dictRemove_cons_self,
            dictRemove_fresh hrestEfresh,
            dictInsert_fresh _ (hrfresh c (List.mem_cons_self c rest) hp)]
        rw [hstep]
        have hrfresh2 : ∀ d ∈ rest, pendAt q t d = true →
            ∀ p ∈ rval ++ [(c.name, valOf c)], p.1 ≠ d.name := by
          intro d hd hqd p hpmem
          rcases List.mem_append.mp hpmem with h1 | h2
          · exact hrfreshr d hd hqd p h1
          · simp only [List.mem_singleton] at h2
            subst h2
            intro hcontra
            have hcontra2 : c.name = d.name := hcontra
            exact hcnotrest (hcontra2 ▸ List.mem_map_of_mem Conn.name hd)
        rw [ih pre errors (rval ++ [(c.name, valOf c)]) hndr hprer hfetchr hrfresh2]
        have hpend1 : pendAt q (t + 1) c = false := by
          simp only [pendAt, hq, Bool.true_and]
          simpa using (by omega : ¬(t + 1 ≤ c.aggCompletedAt))
        have hnow : (pendAt q t c && decide (c.aggCompletedAt ≤ t)) = true := by
          simp [hp, hcomp]
        simp [List.filter_cons, hpend1, hnow]
      · -- still pending: the handle stays in cmd
        have hlook : dictLookup (pre ++ ((c.name, c.aggHandle) ::
            (rest.filter (pendAt q t)).map (fun d => (d.name, d.aggHandle))))
            c.name = some c.aggHandle := by
          rw [dictLookup_append_fresh hprec]
          exact dictLookup_cons_self
        have hstep : doWaitStep t
            (pre ++ ((c.name, c.aggHandle) ::
              (rest.filter (pendAt q t)).map (fun d => (d.name, d.aggHandle))),
             errors, rval) c =
            (pre ++ ((c.name, c.aggHandle) ::
              (rest.filter (pendAt q t)).map (fun d => (d.name, d.aggHandle))),
             errors, rval) := by
          simp only [doWaitStep, hlook]
          have hcomp2 : ¬(c.aggHandle.completedAt ≤ t) := hcomp
          rw [if_neg hcomp2]
        rw [hstep]
        have hassoc : pre ++ ((c.name, c.aggHandle) ::
            (rest.filter (pendAt q t)).map (fun d => (d.name, d.aggHandle))) =
            (pre ++ [(c.name, c.aggHandle)]) ++
              (rest.filter (pendAt q t)).map (fun d => (d.name, d.aggHandle)) := by
          simp
        rw [hassoc]
        have hprer2 : ∀ d ∈ rest, ∀ p ∈ pre ++ [(c.name, c.aggHandle)],
            p.1 ≠ d.name := by
          intro d hd p hpmem
          rcases List.mem_append.mp hpmem with h1 | h2
          · exact hprer d hd p h1
          · simp only [List.mem_singleton] at h2
            subst h2
            intro hcontra
            have hcontra2 : c.name = d.name := hcontra
            exact hcnotrest (hcontra2 ▸ List.mem_map_of_mem Conn.name hd)
        rw [ih (pre ++ [(c.name, c.aggHandle)]) errors rval hndr hprer2
          hfetchr hrfreshr]
        have hpend1 : pendAt q (t + 1) c = true := by
          simp only [pendAt, hq, Bool.true_and]
          simpa using (by omega : t + 1 ≤ c.aggCompletedAt)
        have hnow : (pendAt q t c && decide (c.aggCompletedAt ≤ t)) = false := by
          simp [hcomp]
        simp [List.filter_cons, hpend1, hnow]
    · -- never pending at t: no handle in cmd, keep_alive only
      have hp2 : pendAt q t c = false := by simpa using hp
      rw [List.filter_cons_of_neg (by simp [hp2])]
      have hlook : dictLookup (pre ++ (rest.filter (pendAt q t)).map
          (fun d => (d.name, d.aggHandle))) c.name = none := by
        apply dictLookup_fresh
        intro p hpmem
        rcases List.mem_append.mp hpmem with h1 | h2
        · exact hprec p h1
        · exact hrestEfresh p h2
      have hstep : doWaitStep t
          (pre ++ (rest.filter (pendAt q t)).map
            (fun d => (d.name, d.aggHandle)), errors, rval) c =
          (pre ++ (rest.filter (pendAt q t)).map
            (fun d => (d.name, d.aggHandle)), errors, rval) := by
        simp only [doWaitStep, hlook]
      rw [hstep]
      rw [ih pre errors rval hndr hprer hfetchr hrfreshr]
      have hpend1 : pendAt q (t + 1) c = false := by
        by_cases hq : q c = true
        · simp only [pendAt, hq, Bool.true_and] at hp2 ⊢
          simp only [decide_eq_false_iff_not] at hp2
          simpa using (by omega : ¬(t + 1 ≤ c.aggCompletedAt))
        · have hq2 : q c = false := by simpa using hq
          simp [pendAt, hq2]
      have hnow : (pendAt q t c && decide (c.aggCompletedAt ≤ t)) = false := by
        simp [hp2]
      simp [List.filter_cons, hpend1, hnow]

theorem pendAt_succ_eq (q : Conn → Bool) (t : Nat) (cs : List Conn) :
    cs.filter (pendAt q (t + 1)) =
      cs.filter (fun c => pendAt q t c && !(decide (c.aggCompletedAt ≤ t))) := by
  apply List.filter_congr
  intro c _
  by_cases hq : q c = true
  · simp only [pendAt, hq, Bool.true_and]
    by_cases h : c.aggCompletedAt ≤ t
    · have h1 : ¬(t + 1 ≤ c.aggCompletedAt) := by omega
      simp [h, h1]
    · have h1 : t + 1 ≤ c.aggCompletedAt := by omega
      have h2 : t ≤ c.aggCompletedAt := by omega
      simp [h, h1, h2]
  · have hq2 : q c = false := by simpa using hq
    simp [pendAt, hq2]

theorem doWaitAux_ok {cs : List Conn} (hnd : (cs.map Conn.name).Nodup)
    (q : Conn → Bool) (valOf : Conn → Int)
    (hfetch : ∀ c ∈ cs, q c = true → c.aggFetch = .ok (valOf c)) :
    ∀ (fuel t : Nat) (errors : List (String × PyExc))
      (rval : List (String × Int)),
      (∀ c ∈ cs, q c = true → c.aggCompletedAt < t + fuel) →
      (∀ c ∈ cs, pendAt q t c = true → ∀ p ∈ rval, p.1 ≠ c.name) →
      ∃ out, doWaitAux cs fuel t
          ((cs.filter (pendAt q t)).map (fun c => (c.name, c.aggHandle)))
          errors rval = some (errors, rval ++ out) ∧
        (out.map Prod.fst).Perm ((cs.filter (pendAt q t)).map Conn.name) ∧
        (∀ c ∈ cs, pendAt q t c = true →
          dictLookup out c.name = some (valOf c)) := by
  intro fuel
  induction fuel with
  | zero =>
    intro t errors rval hfuel hfresh
    have hpend : cs.filter (pendAt q t) = [] := by
      apply List.filter_eq_nil_iff.mpr
      intro c hc hpc
      have h1 : q c = true := by
        simp only [pendAt, Bool.and_eq_true] at hpc
        exact hpc.1
      have h2 : t ≤ c.aggCompletedAt := by
        simp only [pendAt, Bool.and_eq_true, decide_eq_true_eq] at hpc
        exact hpc.2
      have := hfuel c hc h1
      omega
    refine ⟨[], ?_, ?_, ?_⟩
    · simp [doWaitAux, hpend]
    · simp [hpend]
    · intro c hc hpc
      exfalso
      have hmem : c ∈ cs.filter (pendAt q t) := List.mem_filter.mpr ⟨hc, hpc⟩
      rw [hpend] at hmem
      cases hmem
  | succ f ih =>
    intro t errors rval hfuel hfresh
    by_cases hpend : cs.filter (pendAt q t) = []
    · refine ⟨[], ?_, ?_, ?_⟩
      · simp [doWaitAux, hpend]
      · simp [hpend]
      · intro c hc hpc
        exfalso
        have hmem : c ∈ cs.filter (pendAt q t) := List.mem_filter.mpr ⟨hc, hpc⟩
        rw [hpend] at hmem
        cases hmem
    · have hne : ¬(((cs.filter (pendAt q t)).map
          (fun c => (c.name, c.aggHandle))).isEmpty = true) := by
        simp [List.isEmpty_iff, hpend]
      have hpass := doWaitFold_eq t q valOf cs [] errors rval hnd
        (by intro c hc p hp; cases hp) hfetch hfresh
      have hpass2 : doWaitPass cs t
          ((cs.filter (pendAt q t)).map (fun c => (c.name, c.aggHandle)),
           errors, rval) =
          ((cs.filter (pendAt q (t + 1))).map (fun c => (c.name, c.aggHandle)),
           errors,
           rval ++ (cs.filter (fun c => pendAt q t c &&
             decide (c.aggCompletedAt ≤ t))).map (fun c => (c.name, valOf c))) := by
        simpa [doWaitPass] using hpass
      have hfuel2 : ∀ c ∈ cs, q c = true → c.aggCompletedAt < (t + 1) + f := by
        intro c hc hqc
        have := hfuel c hc hqc
        omega
      have hfresh2 : ∀ c ∈ cs, pendAt q (t + 1) c = true →
          ∀ p ∈ rval ++ (cs.filter (fun c => pendAt q t c &&
            decide (c.aggCompletedAt ≤ t))).map (fun c => (c.name, valOf c)),
          p.1 ≠ c.name := by
        intro c hc hpc p hp
        have hq : q c = true := by
          simp only [pendAt, Bool.and_eq_true] at hpc
          exact hpc.1
        have ht1 : t + 1 ≤ c.aggCompletedAt := by
          simp only [pendAt, Bool.and_eq_true, decide_eq_true_eq] at hpc
          exact hpc.2
        have hpt : pendAt q t c = true := by
          simp only [pendAt, hq, Bool.true_and, decide_eq_true_eq]
          omega
        rcases List.mem_append.mp hp with h1 | h2
        · exact hfresh c hc hpt p h1
        · obtain ⟨d, hd, hdp⟩ := List.mem_map.mp h2
          obtain ⟨hdc, hdq⟩ := List.mem_filter.mp hd
          subst hdp
          intro hcontra
          have hdn : d.name = c.name := hcontra
          have : d = c := name_inj hnd hdc hc hdn
          subst this
          simp only [Bool.and_eq_true, decide_eq_true_eq] at hdq
          omega
      obtain ⟨out2, hrun, hperm, hlook⟩ := ih (t + 1) errors
        (rval ++ (cs.filter (fun c => pendAt q t c &&
          decide (c.aggCompletedAt ≤ t))).map (fun c => (c.name, valOf c)))
        hfuel2 hfresh2
      refine ⟨(cs.filter (fun c => pendAt q t c &&
          decide (c.aggCompletedAt ≤ t))).map (fun c => (c.name, valOf c)) ++ out2,
        ?_, ?_, ?_⟩
      · rw [doWaitAux, if_neg hne]
        show doWaitAux cs f (t + 1)
            (doWaitPass cs t ((cs.filter (pendAt q t)).map
              (fun c => (c.name, c.aggHandle)), errors, rval)).1
            (doWaitPass cs t ((cs.filter (pendAt q t)).map
              (fun c => (c.name, c.aggHandle)), errors, rval)).2.1
            (doWaitPass cs t ((cs.filter (pendAt q t)).map
              (fun c => (c.name, c.aggHandle)), errors, rval)).2.2 = _
        rw [hpass2]
        rw [List.append_assoc] at hrun
        exact hrun
      · rw [List.map_append]
        have hmm1 : ((cs.filter (fun c => pendAt q t c &&
            decide (c.aggCompletedAt ≤ t))).map
              (fun c => (c.name, valOf c))).map Prod.fst =
            (cs.filter (fun c => pendAt q t c &&
              decide (c.aggCompletedAt ≤ t))).map Conn.name := by
          rw [List.map_map]
          rfl
        rw [hmm1]
        have hperm2 := hperm
        rw [pendAt_succ_eq] at hperm2
        have hstep := List.Perm.append_left ((cs.filter (fun c => pendAt q t c &&
          decide (c.aggCompletedAt ≤ t))).map Conn.name) hperm2
        refine hstep.trans ?_
        have hfp := (filter_and_perm (pendAt q t)
          (fun c => decide (c.aggCompletedAt ≤ t)) cs).map Conn.name
        rw [List.map_append] at hfp
        exact hfp
      · intro c hc hpc
        by_cases hcomp : c.aggCompletedAt ≤ t
        · have hcmem : c ∈ cs.filter (fun c => pendAt q t c &&
              decide (c.aggCompletedAt ≤ t)) :=
            List.mem_filter.mpr ⟨hc, by simp [hpc, hcomp]⟩
          have hnod : ((cs.filter (fun c => pendAt q t c &&
              decide (c.aggCompletedAt ≤ t))).map Conn.name).Nodup :=
            mapFilter_nodup hnd (List.Sublist.refl cs) _
          exact dictLookup_append_left (dictLookup_mapEntry hnod hcmem valOf)
        · have hq : q c = true := by
            simp only [pendAt, Bool.and_eq_true] at hpc
            exact hpc.1
          have ht1 : t + 1 ≤ c.aggCompletedAt := by omega
          have hp1 : pendAt q (t + 1) c = true := by
            simp only [pendAt, hq, Bool.true_and, decide_eq_true_eq]
            exact ht1
          have hfreshpass : ∀ p ∈ (cs.filter (fun c => pendAt q t c &&
              decide (c.aggCompletedAt ≤ t))).map (fun c => (c.name, valOf c)),
              p.1 ≠ c.name := by
            intro p hp
            obtain ⟨d, hd, hdp⟩ := List.mem_map.mp hp
            obtain ⟨hdc, hdq⟩ := List.mem_filter.mp hd
            subst hdp
            intro hcontra
            have hdn : d.name = c.name := hcontra
            have : d = c := name_inj hnd hdc hc hdn
            subst this
            simp only [Bool.and_eq_true, decide_eq_true_eq] at hdq
            omega
          rw [dictLookup_append_fresh hfreshpass]
          exact hlook c hc hp1

/-- Claim C3: when sessions are ready and every live connection's aggregate
call is issued without exception, completes, and fetches successfully,
aggregate(expr) returns a dict with exactly one entry per live connection
name (the keys are a permutation of the connection names, which are assumed
distinct), each entry holding that server's fetched value, and has_errors()
is False afterwards.  (At least one connection must exist: with none,
sessions() raises its no-sessions DSError by design.) -/
theorem aggregate_all_success (s : SessionState) (cs : List Conn)
    (hconns : s.conns = some cs) (hnd : (cs.map Conn.name).Nodup)
    (hne : cs ≠ [])
    (hnostart : ∀ c ∈ cs, startFails c = false)
    (hok0 : ∀ c ∈ cs, c.sessionStarted 0 = .ok true)
    (hissue : ∀ c ∈ cs, c.aggIssueErr = none)
    (valOf : Conn → Int) (hfetch : ∀ c ∈ cs, c.aggFetch = .ok (valOf c))
    (fuel : Nat) (hfuel : ∀ c ∈ cs, c.aggCompletedAt < fuel)
    (expr : String) :
    ∃ rmap, aggregateRun s fuel expr =
        some (.ok rmap, { s with conns := some cs, errors := some [] }) ∧
      (rmap.map Prod.fst).Perm (cs.map Conn.name) ∧
      (∀ c ∈ cs, dictLookup rmap c.name = some (valOf c)) ∧
      hasErrors { s with conns := some cs, errors := some [] } = .ok false := by
  have hsess := sessionsRun_all_ready s cs hconns hne hnostart hok0
  have hfilter : cs.filter (pendAt (fun c => c.aggIssueErr.isNone) 0) = cs := by
    apply List.filter_eq_self.mpr
    intro c hc
    simp [pendAt, hissue c hc]
  obtain ⟨out, hrun, hperm, hlook⟩ := doWaitAux_ok hnd
    (fun c => c.aggIssueErr.isNone) valOf
    (fun c hc _ => hfetch c hc) fuel 0 [] []
    (fun c hc _ => by have := hfuel c hc; omega)
    (fun c hc _ p hp => absurd hp (List.not_mem_nil p))
  rw [hfilter] at hrun hperm
  have hip := aggIssuePhase_all_ok hissue
  refine ⟨out, ?_, ?_, ?_, ?_⟩
  · simp only [aggregateRun, hsess, hip]
    rw [hrun]
    simp
  · exact hperm
  · intro c hc
    exact hlook c hc (by simp [pendAt, hissue c hc])
  · rfl

theorem aggregate_all_success_witness :
    ∃ rmap, aggregateRun (⟨[], 300000, 100,
        some [readyConn "a" 1, ⟨"c", "c-sess", true, none,
          fun _ => Except.ok true, none, none, none, 1, Except.ok 7⟩],
        none⟩ : SessionState) 2 "mean(x)" =
        some (.ok rmap, ⟨[], 300000, 100,
          some [readyConn "a" 1, ⟨"c", "c-sess", true, none,
            fun _ => Except.ok true, none, none, none, 1, Except.ok 7⟩],
          some []⟩) ∧
      (rmap.map Prod.fst).Perm ["a", "c"] ∧
      (∀ c ∈ [readyConn "a" 1, ⟨"c", "c-sess", true, none,
          fun _ => Except.ok true, none, none, none, 1, Except.ok 7⟩],
        dictLookup rmap c.name = some (if c.name == "a" then (1 : Int) else 7)) ∧
      hasErrors (⟨[], 300000, 100,
        some [readyConn "a" 1, ⟨"c", "c-sess", true, none,
          fun _ => Except.ok true, none, none, none, 1, Except.ok 7⟩],
        some []⟩ : SessionState) = .ok false :=
  aggregate_all_success
    ⟨[], 300000, 100,
      some [readyConn "a" 1, ⟨"c", "c-sess", true, none,
        fun _ => Except.ok true, none, none, none, 1, Except.ok 7⟩], none⟩
    [readyConn "a" 1, ⟨"c", "c-sess", true, none,
      fun _ => Except.ok true, none, none, none, 1, Except.ok 7⟩]
    rfl (by decide) (List.cons_ne_nil _ _) (by decide) (by decide) (by decide)
    (fun c => if c.name == "a" then (1 : Int) else 7) (by decide)
    2 (by decide) "mean(x)"

/-- Claim C1 counterexample: three live ready connections, exactly one of
which ("b") raises when its aggregate call is issued while the other two
complete and fetch successfully.  aggregate(expr) does not yield a result
map at all: it raises the _check_errors DSError (the locally built result
dict is discarded).  has_errors() is True afterwards and "b" is a key of
the error dict, but no result map reaches the caller. -/
theorem aggregate_partial_failure_counterexample :
    Option.map Prod.fst (aggregateRun (⟨[], 300000, 100,
        some [readyConn "a" 1, badIssueConn "b", readyConn "c" 3], none⟩ :
        SessionState) 2 "x") =
      some (.error (.dsError checkErrorsMsg)) ∧
    Option.map (fun p => hasErrors p.2) (aggregateRun (⟨[], 300000, 100,
        some [readyConn "a" 1, badIssueConn "b", readyConn "c" 3], none⟩ :
        SessionState) 2 "x") =
      some (.ok true) ∧
    Option.map (fun p => dictMem (p.2.errors.getD []) "b")
      (aggregateRun (⟨[], 300000, 100,
        some [readyConn "a" 1, badIssueConn "b", readyConn "c" 3], none⟩ :
        SessionState) 2 "x") =
      some true := by
  refine ⟨rfl, rfl, rfl⟩

/-- Claim C1 amended: when sessions are ready and at least one live
connection raises while issuing its aggregate call and the others complete
and fetch successfully, aggregate(expr) raises the _check_errors DSError
instead of returning a result map; has_errors() is True afterwards and the
failing server's name maps to its exception in get_errors(); the wait loop
does fetch the results of the succeeding servers internally (one entry per
succeeding connection), but that map is discarded by the raise and never
returned to the caller. -/
theorem aggregate_partial_failure (s : SessionState) (cs : List Conn)
    (bad : Conn) (e : PyExc)
    (hconns : s.conns = some cs) (hnd : (cs.map Conn.name).Nodup)
    (hnostart : ∀ c ∈ cs, startFails c = false)
    (hok0 : ∀ c ∈ cs, c.sessionStarted 0 = .ok true)
    (hbad : bad ∈ cs) (hbaderr : bad.aggIssueErr = some e)
    (valOf : Conn → Int)
    (hfetch : ∀ c ∈ cs, c.aggIssueErr = none → c.aggFetch = .ok (valOf c))
    (fuel : Nat) (hfuel : ∀ c ∈ cs, c.aggCompletedAt < fuel)
    (expr : String) :
    ∃ out, aggregateRun s fuel expr =
        some (.error (.dsError checkErrorsMsg),
          { s with
            conns := some cs,
            errors := some ((cs.filter (fun c => c.aggIssueErr.isSome)).map
              (fun c => (c.name, c.aggIssueErr.getD (.exc "")))) }) ∧
      hasErrors
        { s with
          conns := some cs,
          errors := some ((cs.filter (fun c => c.aggIssueErr.isSome)).map
            (fun c => (c.name, c.aggIssueErr.getD (.exc "")))) } = .ok true ∧
      dictLookup ((cs.filter (fun c => c.aggIssueErr.isSome)).map
        (fun c => (c.name, c.aggIssueErr.getD (.exc "")))) bad.name = some e ∧
      doWaitAux cs fuel 0 (aggIssuePhase cs).1 (aggIssuePhase cs).2 [] =
        some ((aggIssuePhase cs).2, out) ∧
      (out.map Prod.fst).Perm
        ((cs.filter (fun c => c.aggIssueErr.isNone)).map Conn.name) ∧
      ∀ c ∈ cs, c.aggIssueErr = none →
        dictLookup out c.name = some (valOf c) := by
  have hne : cs ≠ [] := by
    intro h
    rw [h] at hbad
    cases hbad
  have hsess := sessionsRun_all_ready s cs hconns hne hnostart hok0
  have hip := aggIssuePhase_eq hnd
  have hfq : cs.filter (pendAt (fun c => c.aggIssueErr.isNone) 0) =
      cs.filter (fun c => c.aggIssueErr.isNone) :=
    List.filter_congr (fun c _ => by simp [pendAt])
  obtain ⟨out, hrun, hperm, hlook⟩ := doWaitAux_ok hnd
    (fun c => c.aggIssueErr.isNone) valOf
    (fun c hc hqc => hfetch c hc (Option.isNone_iff_eq_none.mp hqc))
    fuel 0
    ((cs.filter (fun c => c.aggIssueErr.isSome)).map
      (fun c => (c.name, c.aggIssueErr.getD (.exc "")))) []
    (fun c hc _ => by have := hfuel c hc; omega)
    (fun c hc _ p hp => absurd hp (List.not_mem_nil p))
  rw [hfq] at hrun hperm
  have hbadmem : bad ∈ cs.filter (fun c => c.aggIssueErr.isSome) :=
    List.mem_filter.mpr ⟨hbad, by simp [hbaderr]⟩
  have herrlen : 0 < ((cs.filter (fun c => c.aggIssueErr.isSome)).map
      (fun c => (c.name, c.aggIssueErr.getD (.exc "")))).length := by
    rw [List.length_map]
    exact List.length_pos_of_mem hbadmem
  have herrne : ¬(((cs.filter (fun c => c.aggIssueErr.isSome)).map
      (fun c => (c.name, c.aggIssueErr.getD (.exc "")))).isEmpty = true) := by
    rw [List.isEmpty_iff]
    intro h
    rw [h] at herrlen
    simp at herrlen
  have hnodE : ((cs.filter (fun c => c.aggIssueErr.isSome)).map
      Conn.name).Nodup :=
    mapFilter_nodup hnd (List.Sublist.refl cs) _
  refine ⟨out, ?_, ?_, ?_, ?_, ?_, ?_⟩
  · simp only [aggregateRun, hsess, hip]
    rw [hrun]
    simp only [List.nil_append]
    rw [if_neg herrne]
  · have herrlen2 : 0 < (cs.filter (fun c => c.aggIssueErr.isSome)).length :=
      List.length_pos_of_mem hbadmem
    simp [hasErrors, herrlen2]
  · simpa [hbaderr] using
      dictLookup_mapEntry hnodE hbadmem
        (fun c => c.aggIssueErr.getD (.exc ""))
  · simp only [hip]
    simpa using hrun
  · exact hperm
  · intro c hc hcn
    exact hlook c hc (by simp [pendAt, hcn])

theorem aggregate_partial_failure_witness :
    ∃ out, aggregateRun (⟨[], 300000, 100,
        some [readyConn "a" 1, badIssueConn "b", readyConn "c" 3], none⟩ :
        SessionState) 2 "x" =
        some (.error (.dsError checkErrorsMsg),
          ⟨[], 300000, 100,
           some [readyConn "a" 1, badIssueConn "b", readyConn "c" 3],
           some [("b", PyExc.exc "aggregate refused")]⟩) ∧
      hasErrors (⟨[], 300000, 100,
        some [readyConn "a" 1, badIssueConn "b", readyConn "c" 3],
        some [("b", PyExc.exc "aggregate refused")]⟩ : SessionState) =
        .ok true ∧
      dictLookup [("b", PyExc.exc "aggregate refused")]
        (badIssueConn "b").name = some (.exc "aggregate refused") ∧
      doWaitAux [readyConn "a" 1, badIssueConn "b", readyConn "c" 3] 2 0
        (aggIssuePhase [readyConn "a" 1, badIssueConn "b", readyConn "c" 3]).1
        (aggIssuePhase [readyConn "a" 1, badIssueConn "b", readyConn "c" 3]).2
        [] =
        some ((aggIssuePhase
          [readyConn "a" 1, badIssueConn "b", readyConn "c" 3]).2, out) ∧
      (out.map Prod.fst).Perm ["a", "c"] ∧
      ∀ c ∈ [readyConn "a" 1, badIssueConn "b", readyConn "c" 3],
        c.aggIssueErr = none →
        dictLookup out c.name = some (if c.name == "a" then (1 : Int) else 3) :=
  aggregate_partial_failure
    ⟨[], 300000, 100,
      some [readyConn "a" 1, badIssueConn "b", readyConn "c" 3], none⟩
    [readyConn "a" 1, badIssueConn "b", readyConn "c" 3]
    (badIssueConn "b") (.exc "aggregate refused")
    rfl (by decide) (by decide) (by decide)
    (by simp [badIssueConn, readyConn]) rfl
    (fun c => if c.name == "a" then (1 : Int) else 3)
    (by decide) 2 (by decide) "x"
